import Mathlib

/-!
Shallow embedding of `src/tc_sch/marco_fq.c` (the marco_fq fair-queue packet
scheduler, a variant of the Linux sch_fq qdisc with an additional per-IP
counting table wired into enqueue/dequeue).

Modelling conventions:
* `u64` quantities are `Nat`; wrap-around is made explicit (`% U64`) exactly
  where the C code performs subtraction or a signed `(s64)` cast on unsigned
  values (horizon check, CE-mark check, `time_after`).
* C `int` fields (`credit`, `qlen` of a flow) are `Int`; signed overflow is
  undefined behaviour in C, so the unbounded model is used, except where the
  code itself casts through `u32` (`max_t(u32, f->credit, q->quantum)`),
  which is modelled bit-exactly by `creditRefill`.
* Kernel rb-trees keyed by a value are modelled as lists kept in the tree's
  in-order (sorted) order, with ties inserted to the right (after equal keys),
  matching the `>=` descent in the source.
* The sharded `fq_root[]` of rb-trees keyed by socket pointer is modelled as
  an association list keyed by the flow identity; the shard split by
  `hash_ptr` does not change lookup results.
* The jhash-bucketed `ip_count_table` is modelled as a list of entries looked
  up by exact (source, destination) IP pair equality.
* `ktime_get_ns()` and `jiffies` are explicit `now`/`jiffies` parameters.
* `kmem_cache_zalloc` / `kmalloc` success is an explicit boolean parameter.
-/

/-- 2^64, the modulus of `u64` arithmetic. -/
def U64 : Nat := 18446744073709551616

/-- `~0ULL`, used by the scheduler as the "no delayed flow" sentinel. -/
def U64MAX : Nat := U64 - 1

/-- Reinterpret a `u64` bit pattern as a signed 64-bit value (`(s64)x`). -/
def toS64 (x : Nat) : Int :=
  if x % U64 < 9223372036854775808 then ((x % U64 : Nat) : Int)
  else ((x % U64 : Nat) : Int) - (U64 : Int)

/-- `u64` subtraction `a - b` with wrap-around. -/
def wsub64 (a b : Nat) : Nat := (a % U64 + (U64 - b % U64)) % U64

/-- Kernel `time_after(a, b)`: true when jiffies value `a` is after `b`,
computed as `(long)(b - a) < 0` on 64-bit unsigned longs. -/
def time_after (a b : Nat) : Bool := toS64 (wsub64 b a) < 0

/-- Kernel config HZ (jiffies per second); modelled as 1000. -/
def HZ : Nat := 1000

def NSEC_PER_SEC : Nat := 1000000000

def NSEC_PER_USEC : Nat := 1000

/-- `usecs_to_jiffies` for HZ = 1000: round up to the next millisecond. -/
def usecs_to_jiffies (u : Nat) : Nat := (u + 999) / 1000

/-- `f->credit = max_t(u32, f->credit, q->quantum)` from marco_fq_enqueue:
the signed `int` credit is converted to `u32`, maxed against the `u32`
quantum, and the result is stored back into the signed `int` field. -/
def creditRefill (c : Int) (q : Nat) : Int :=
  let cu : Nat := (c % (4294967296 : Int)).toNat
  let m : Nat := max cu (q % 4294967296)
  if m < 2147483648 then (m : Int) else (m : Int) - 4294967296

/-- An sk_buff as seen by this scheduler: the fields the code reads or
writes.  `sk = 0` models a NULL socket pointer; `tstamp = 0` models an
absent EDT timestamp (the code tests `!skb->tstamp`). -/
structure Packet where
  tstamp : Nat
  time_to_send : Nat
  len : Nat
  prio_control : Bool
  sk : Nat
  sk_hash : Nat
  sk_listener : Bool
  sk_tcp_close : Bool
  sk_pacing_rate : Nat
  hash : Nat
  s_ip : Nat
  d_ip : Nat
  ce : Bool
  deriving DecidableEq

/-- Entry of the global `ip_count_table` side hash table. -/
structure hash_ip_count where
  s_ip : Nat
  d_ip : Nat
  count : Int
  deriving DecidableEq

/-- struct marco_fq_flow.  The C union of `tail` (last skb of the fifo,
even pointer) and `age` (`jiffies | 1`, odd) is modelled as the tagged pair
`detached : Bool` (the low tag bit) and `age : Nat`; the fifo itself is the
list `fifo` (the `head`..`tail` chain), and the rbtree `t_root` is the list
`tree` in its in-order (sorted by `time_to_send`, ties right). -/
structure marco_fq_flow where
  tree : List Packet
  fifo : List Packet
  detached : Bool
  age : Nat
  sk : Nat
  socket_hash : Nat
  qlen : Int
  credit : Int
  time_next_packet : Nat
  deriving DecidableEq

/-- A flow record with everything zeroed, as produced by
`kmem_cache_zalloc` before the creation code fills fields in. -/
def zeroFlow : marco_fq_flow :=
  { tree := [], fifo := [], detached := false, age := 0, sk := 0,
    socket_hash := 0, qlen := 0, credit := 0, time_next_packet := 0 }

/-- Insertion into the per-flow rbtree `t_root` keyed by `time_to_send`:
the source descends right on `skb->tts >= aux->tts`, so a new packet lands
after all packets with key less than or equal to its own. -/
def treeInsert (t : List Packet) (skb : Packet) : List Packet :=
  match t with
  | [] => [skb]
  | a :: rest =>
      if a.time_to_send ≤ skb.time_to_send then a :: treeInsert rest skb
      else skb :: a :: rest

/-- marco_flow_queue_add: if the fifo is empty or the new packet's
time_to_send is at least the tail's, append to the fifo in O(1) (this
writes `flow->tail`, clearing the detached tag); otherwise insert into the
rbtree. -/
def marco_flow_queue_add (flow : marco_fq_flow) (skb : Packet) : marco_fq_flow :=
  match flow.fifo.getLast? with
  | none => { flow with fifo := [skb], detached := false }
  | some tl =>
      if tl.time_to_send ≤ skb.time_to_send then
        { flow with fifo := flow.fifo ++ [skb], detached := false }
      else
        { flow with tree := treeInsert flow.tree skb }

/-- marco_fq_peek: the smaller of the rbtree minimum and the fifo head,
ties favouring the fifo head (the tree wins only on strict `<`). -/
def marco_fq_peek (flow : marco_fq_flow) : Option Packet :=
  match flow.tree.head?, flow.fifo.head? with
  | none, h => h
  | some skb, none => some skb
  | some skb, some h =>
      if skb.time_to_send < h.time_to_send then some skb else some h

/-- Whether marco_fq_peek would take its result from the rbtree (else the
fifo).  Mirrors the branch structure of marco_fq_erase_head, which removes
the peeked skb from whichever structure supplied it. -/
def peekFromTree (flow : marco_fq_flow) : Bool :=
  match flow.tree.head?, flow.fifo.head? with
  | none, _ => false
  | some _, none => true
  | some skb, some h => skb.time_to_send < h.time_to_send

/-- marco_fq_erase_head applied to the packet returned by marco_fq_peek:
pop the fifo head if the peek came from the fifo, else erase the rbtree
minimum. -/
def flowRemovePeeked (flow : marco_fq_flow) : marco_fq_flow :=
  if peekFromTree flow then { flow with tree := flow.tree.tail }
  else { flow with fifo := flow.fifo.tail }

/-- All packets currently queued in a flow (rbtree and fifo). -/
def flowElems (flow : marco_fq_flow) : List Packet := flow.tree ++ flow.fifo

/-- Repeated peek-and-remove, with explicit fuel. -/
def drainFlow : Nat → marco_fq_flow → List Packet
  | 0, _ => []
  | n + 1, flow =>
      match marco_fq_peek flow with
      | none => []
      | some skb => skb :: drainFlow n (flowRemovePeeked flow)

/-- Ordering of packets by deadline. -/
def pktLE (a b : Packet) : Prop := a.time_to_send ≤ b.time_to_send

instance : DecidablePred fun p : Packet × Packet => pktLE p.1 p.2 := by
  intro p; unfold pktLE; infer_instance

/-- The internal sortedness invariant of a flow's two packet structures:
the fifo chain and the tree's in-order list are each non-decreasing in
time_to_send. -/
def flowInv (flow : marco_fq_flow) : Prop :=
  flow.fifo.Sorted pktLE ∧ flow.tree.Sorted pktLE

/-- marco_fq_flow_purge: unlink every queued skb and zero the queue
length; the head pointer is cleared (the stale tail/age word is left). -/
def marco_fq_flow_purge (flow : marco_fq_flow) : marco_fq_flow :=
  { flow with tree := [], fifo := [], qlen := 0 }

/-! ### Per-flow ordering lemmas (claim C1) -/

theorem pktLE_refl (a : Packet) : pktLE a a := le_refl _

theorem pktLE_trans {a b c : Packet} (h1 : pktLE a b) (h2 : pktLE b c) : pktLE a c :=
  le_trans h1 h2

theorem mem_treeInsert {t : List Packet} {skb x : Packet} :
    x ∈ treeInsert t skb ↔ x ∈ t ∨ x = skb := by
  induction t with
  | nil => simp [treeInsert]
  | cons a rest ih =>
      by_cases h : a.time_to_send ≤ skb.time_to_send
      · simp only [treeInsert, if_pos h, List.mem_cons, ih]
        tauto
      · simp only [treeInsert, if_neg h, List.mem_cons]
        tauto

theorem treeInsert_sorted {t : List Packet} {skb : Packet} (h : t.Sorted pktLE) :
    (treeInsert t skb).Sorted pktLE := by
  induction t with
  | nil => simp [treeInsert]
  | cons a rest ih =>
      rcases List.sorted_cons.mp h with ⟨ha, hrest⟩
      by_cases hc : a.time_to_send ≤ skb.time_to_send
      · simp only [treeInsert, if_pos hc]
        refine List.sorted_cons.mpr ⟨?_, ih hrest⟩
        intro b hb
        rcases mem_treeInsert.mp hb with hb | rfl
        · exact ha b hb
        · exact hc
      · simp only [treeInsert, if_neg hc]
        refine List.sorted_cons.mpr ⟨?_, h⟩
        intro b hb
        have hsa : pktLE skb a := le_of_lt (lt_of_not_le hc)
        rcases List.mem_cons.mp hb with rfl | hb
        · exact hsa
        · exact pktLE_trans hsa (ha b hb)

theorem sorted_head_le {l : List Packet} {h0 : Packet} (hs : l.Sorted pktLE)
    (hh : l.head? = some h0) : ∀ x ∈ l, pktLE h0 x := by
  cases l with
  | nil => simp at hh
  | cons a rest =>
      simp only [List.head?_cons, Option.some.injEq] at hh
      subst hh
      rcases List.sorted_cons.mp hs with ⟨ha, _⟩
      intro x hx
      rcases List.mem_cons.mp hx with rfl | hx
      · exact pktLE_refl _
      · exact ha x hx

theorem sorted_le_getLast {l : List Packet} {tl : Packet} (h : l.Sorted pktLE)
    (hl : l.getLast? = some tl) : ∀ b ∈ l, pktLE b tl := by
  induction l with
  | nil => simp at hl
  | cons a rest ih =>
      rcases List.sorted_cons.mp h with ⟨ha, hrest⟩
      cases rest with
      | nil =>
          simp only [List.getLast?_singleton, Option.some.injEq] at hl
          subst hl
          intro b hb
          rcases List.mem_cons.mp hb with rfl | hb
          · exact pktLE_refl _
          · simp at hb
      | cons c cs =>
          rw [List.getLast?_cons_cons] at hl
          intro b hb
          rcases List.mem_cons.mp hb with rfl | hb2
          · exact ha tl (List.mem_of_mem_getLast? hl)
          · exact ih hrest hl b hb2

theorem flowInv_queue_add {flow : marco_fq_flow} {skb : Packet} (h : flowInv flow) :
    flowInv (marco_flow_queue_add flow skb) := by
  obtain ⟨hf, ht⟩ := h
  unfold marco_flow_queue_add
  cases hl : flow.fifo.getLast? with
  | none => exact ⟨by simp, ht⟩
  | some tl =>
      by_cases hc : tl.time_to_send ≤ skb.time_to_send
      · simp only [if_pos hc]
        refine ⟨?_, ht⟩
        show List.Pairwise pktLE (flow.fifo ++ [skb])
        rw [List.pairwise_append]
        refine ⟨hf, by simp, ?_⟩
        intro a ha b hb
        simp only [List.mem_singleton] at hb
        subst hb
        exact pktLE_trans (sorted_le_getLast hf hl a ha) hc
      · simp only [if_neg hc]
        exact ⟨hf, treeInsert_sorted ht⟩

theorem peek_mem {flow : marco_fq_flow} {m : Packet}
    (hm : marco_fq_peek flow = some m) : m ∈ flowElems flow := by
  unfold marco_fq_peek at hm
  unfold flowElems
  cases ht : flow.tree with
  | nil =>
      rw [ht] at hm
      simp only [List.head?_nil] at hm
      cases hf : flow.fifo with
      | nil => rw [hf] at hm; simp at hm
      | cons a rest =>
          rw [hf] at hm
          simp only [List.head?_cons, Option.some.injEq] at hm
          subst hm; simp
  | cons t0 trest =>
      rw [ht] at hm
      cases hf : flow.fifo with
      | nil =>
          rw [hf] at hm
          simp only [List.head?_cons, List.head?_nil, Option.some.injEq] at hm
          subst hm; simp
      | cons a rest =>
          rw [hf] at hm
          simp only [List.head?_cons] at hm
          by_cases hcmp : t0.time_to_send < a.time_to_send
          · rw [if_pos hcmp] at hm
            cases hm; simp
          · rw [if_neg hcmp] at hm
            cases hm; simp

theorem peek_min {flow : marco_fq_flow} (h : flowInv flow) {m : Packet}
    (hm : marco_fq_peek flow = some m) : ∀ x ∈ flowElems flow, pktLE m x := by
  obtain ⟨hf, ht⟩ := h
  unfold marco_fq_peek at hm
  unfold flowElems
  intro x hx
  rcases List.mem_append.mp hx with hxt | hxf
  · -- x in the tree
    cases hth : flow.tree with
    | nil => rw [hth] at hxt; simp at hxt
    | cons t0 trest =>
        have htmin : ∀ y ∈ flow.tree, pktLE t0 y :=
          sorted_head_le ht (by rw [hth]; rfl)
        rw [hth] at hm
        cases hfh : flow.fifo with
        | nil =>
            rw [hfh] at hm
            simp only [List.head?_cons, List.head?_nil, Option.some.injEq] at hm
            subst hm
            exact htmin x hxt
        | cons a rest =>
            rw [hfh] at hm
            simp only [List.head?_cons] at hm
            by_cases hcmp : t0.time_to_send < a.time_to_send
            · rw [if_pos hcmp] at hm
              cases hm
              exact htmin x hxt
            · rw [if_neg hcmp] at hm
              cases hm
              exact pktLE_trans (le_of_not_lt hcmp) (htmin x hxt)
  · -- x in the fifo
    cases hfh : flow.fifo with
    | nil => rw [hfh] at hxf; simp at hxf
    | cons a rest =>
        have hfmin : ∀ y ∈ flow.fifo, pktLE a y :=
          sorted_head_le hf (by rw [hfh]; rfl)
        rw [hfh] at hm
        cases hth : flow.tree with
        | nil =>
            rw [hth] at hm
            simp only [List.head?_nil, List.head?_cons, Option.some.injEq] at hm
            subst hm
            exact hfmin x hxf
        | cons t0 trest =>
            rw [hth] at hm
            simp only [List.head?_cons] at hm
            by_cases hcmp : t0.time_to_send < a.time_to_send
            · rw [if_pos hcmp] at hm
              cases hm
              exact pktLE_trans (le_of_lt hcmp) (hfmin x hxf)
            · rw [if_neg hcmp] at hm
              cases hm
              exact hfmin x hxf

theorem flowInv_removePeeked {flow : marco_fq_flow} (h : flowInv flow) :
    flowInv (flowRemovePeeked flow) := by
  obtain ⟨hf, ht⟩ := h
  unfold flowRemovePeeked
  by_cases hp : peekFromTree flow
  · simp only [if_pos hp]
    exact ⟨hf, ht.sublist (List.tail_sublist _)⟩
  · simp only [if_neg hp]
    exact ⟨hf.sublist (List.tail_sublist _), ht⟩

theorem elems_removePeeked_subset {flow : marco_fq_flow} :
    ∀ x ∈ flowElems (flowRemovePeeked flow), x ∈ flowElems flow := by
  intro x hx
  unfold flowRemovePeeked at hx
  unfold flowElems at hx ⊢
  by_cases hp : peekFromTree flow
  · simp only [if_pos hp] at hx
    rcases List.mem_append.mp hx with h1 | h2
    · exact List.mem_append.mpr (Or.inl (List.tail_sublist _ |>.mem h1))
    · exact List.mem_append.mpr (Or.inr h2)
  · simp only [if_neg hp] at hx
    rcases List.mem_append.mp hx with h1 | h2
    · exact List.mem_append.mpr (Or.inl h1)
    · exact List.mem_append.mpr (Or.inr (List.tail_sublist _ |>.mem h2))

theorem mem_drainFlow {n : Nat} {flow : marco_fq_flow} {x : Packet}
    (hx : x ∈ drainFlow n flow) : x ∈ flowElems flow := by
  induction n generalizing flow with
  | zero => simp [drainFlow] at hx
  | succ n ih =>
      unfold drainFlow at hx
      cases hm : marco_fq_peek flow with
      | none => rw [hm] at hx; simp at hx
      | some skb =>
          rw [hm] at hx
          rcases List.mem_cons.mp hx with rfl | hx2
          · exact peek_mem hm
          · exact elems_removePeeked_subset x (ih hx2)

theorem drainFlow_sorted (n : Nat) (flow : marco_fq_flow) (h : flowInv flow) :
    (drainFlow n flow).Sorted pktLE := by
  induction n generalizing flow with
  | zero => simp [drainFlow]
  | succ n ih =>
      unfold drainFlow
      cases hm : marco_fq_peek flow with
      | none => simp
      | some skb =>
          refine List.sorted_cons.mpr ⟨?_, ih _ (flowInv_removePeeked h)⟩
          intro b hb
          exact peek_min h hm b (elems_removePeeked_subset b (mem_drainFlow hb))

theorem flowInv_zero : flowInv zeroFlow := by
  constructor <;> simp [zeroFlow]

theorem flowInv_foldl (ps : List Packet) (flow : marco_fq_flow) (h : flowInv flow) :
    flowInv (ps.foldl marco_flow_queue_add flow) := by
  induction ps generalizing flow with
  | nil => exact h
  | cons p rest ih => exact ih _ (flowInv_queue_add h)

/-- C1: for every sequence of enqueues into a single flow, the merge of the
O(1) fifo and the deadline-keyed tree (peek taking the smaller of the fifo
head and the tree minimum, ties favouring the fifo) dequeues the flow's
packets in non-decreasing time_to_send order: however many packets are
popped by repeated peek-and-remove, the output deadlines never decrease,
i.e. peek always returns a minimum remaining deadline. -/
theorem marco_fq_flow_dequeue_order (ps : List Packet) (n : Nat) :
    (drainFlow n (ps.foldl marco_flow_queue_add zeroFlow)).Sorted pktLE :=
  drainFlow_sorted n _ (flowInv_foldl ps zeroFlow flowInv_zero)

/-! ### Scheduler state and flow table -/

/-- struct marco_fq_sched_data together with the qdisc-owned fields the code
touches (`sch->q.qlen`, `sch->qstats.backlog`, `sch->limit`), the watchdog
arming, and the global `ip_count_table`.  `fq_root_present` models whether
`q->fq_root` is non-NULL; the table contents are `flows_tbl`, keyed by the
flow identity (socket pointer / orphan pseudo-identity).  `new_flows`,
`old_flows` and `delayed` hold flow identities; `delayed` is kept in the
rb-tree's in-order order (sorted by time_next_packet, ties right). -/
structure marco_fq_sched_data where
  new_flows : List Nat
  old_flows : List Nat
  delayed : List Nat
  time_next_delayed_flow : Nat
  ktime_cache : Nat
  unthrottle_latency_ns : Nat
  internal : marco_fq_flow
  quantum : Nat
  initial_quantum : Nat
  flow_refill_delay : Nat
  flow_plimit : Nat
  flow_max_rate : Nat
  ce_threshold : Nat
  horizon : Nat
  orphan_mask : Nat
  low_rate_threshold : Nat
  fq_root_present : Bool
  rate_enable : Bool
  fq_trees_log : Nat
  horizon_drop : Bool
  flows : Nat
  inactive_flows : Nat
  throttled_flows : Nat
  stat_gc_flows : Nat
  stat_internal_packets : Nat
  stat_throttled : Nat
  stat_ce_mark : Nat
  stat_horizon_drops : Nat
  stat_horizon_caps : Nat
  stat_flows_plimit : Nat
  stat_pkts_too_long : Nat
  stat_allocation_errors : Nat
  timer_slack : Nat
  flows_tbl : List (Nat × marco_fq_flow)
  qlen : Nat
  backlog : Nat
  limit : Nat
  watchdog : Option Nat
  ip_count_table : List hash_ip_count
  deriving DecidableEq

/-- Lookup in a shard's rb-tree by flow identity. -/
def lookupFlow : List (Nat × marco_fq_flow) → Nat → Option marco_fq_flow
  | [], _ => none
  | (k, v) :: rest, sk => if k = sk then some v else lookupFlow rest sk

/-- Store a (possibly new) flow record under its identity. -/
def setFlow : List (Nat × marco_fq_flow) → Nat → marco_fq_flow → List (Nat × marco_fq_flow)
  | [], sk, v => [(sk, v)]
  | (k, w) :: rest, sk, v =>
      if k = sk then (sk, v) :: rest else (k, w) :: setFlow rest sk v

/-- Dereference a flow identity found on one of the lists (in C this is just
following the pointer; a list never holds a freed flow). -/
def getFlow (s : marco_fq_sched_data) (sk : Nat) : marco_fq_flow :=
  (lookupFlow s.flows_tbl sk).getD zeroFlow

/-- C `int` read through `u32`, as in `f->qlen >= q->flow_plimit`. -/
def u32ofInt (c : Int) : Nat := (c % (4294967296 : Int)).toNat

/-- marco_fq_flow_set_detached: stamp `jiffies | 1UL` into the tail/age
slot (the forced low bit is the detached tag). -/
def marco_fq_flow_set_detached (f : marco_fq_flow) (jiffies : Nat) : marco_fq_flow :=
  { f with detached := true, age := jiffies ||| 1 }

def FQ_GC_MAX : Nat := 8

def FQ_GC_AGE : Nat := 3 * HZ

/-- marco_fq_gc_candidate: detached and idle past the GC age. -/
def marco_fq_gc_candidate (f : marco_fq_flow) (jiffies : Nat) : Bool :=
  f.detached && time_after jiffies (f.age + FQ_GC_AGE)

/-- The GC walk of marco_fq_gc: visit records (the rb-tree descent path is
modelled as the table order), stop at the record for `sk` or after
FQ_GC_MAX candidates, and report the identities to free. -/
def gcCollect (jiffies sk : Nat) : List (Nat × marco_fq_flow) → Nat → List Nat
  | [], _ => []
  | (k, f) :: rest, cnt =>
      if k = sk then []
      else if marco_fq_gc_candidate f jiffies then
        if cnt + 1 = FQ_GC_MAX then [k] else k :: gcCollect jiffies sk rest (cnt + 1)
      else gcCollect jiffies sk rest cnt

/-- marco_fq_gc: batch-free the collected records and fix the counters. -/
def marco_fq_gc (s : marco_fq_sched_data) (jiffies sk : Nat) : marco_fq_sched_data :=
  let ks := gcCollect jiffies sk s.flows_tbl 0
  if ks = [] then s
  else
    { s with flows_tbl := s.flows_tbl.filter (fun kv => ¬ kv.1 ∈ ks),
             flows := s.flows - ks.length,
             inactive_flows := s.inactive_flows - ks.length,
             stat_gc_flows := s.stat_gc_flows + ks.length }

/-- marco_fq_flow_unset_throttled: erase from the delayed rb-tree, drop the
throttled count, and append to the tail of the old-flows list. -/
def marco_fq_flow_unset_throttled (s : marco_fq_sched_data) (fid : Nat) : marco_fq_sched_data :=
  { s with delayed := s.delayed.erase fid,
           throttled_flows := s.throttled_flows - 1,
           old_flows := s.old_flows ++ [fid] }

/-- Insertion position in the delayed rb-tree: descend right while the new
flow's time_next_packet is ≥ the visited node's. -/
def delayedInsert (tbl : List (Nat × marco_fq_flow)) (fid : Nat) : List Nat → List Nat
  | [] => [fid]
  | a :: rest =>
      if ((lookupFlow tbl a).getD zeroFlow).time_next_packet ≤
         ((lookupFlow tbl fid).getD zeroFlow).time_next_packet
      then a :: delayedInsert tbl fid rest
      else fid :: a :: rest

/-- marco_fq_flow_set_throttled: insert into the delayed tree, bump the
throttle counters, and pull time_next_delayed_flow down to the flow's
time_next_packet if smaller.  (`f->next = &throttled` is modelled by the
membership of `fid` in `delayed`.) -/
def marco_fq_flow_set_throttled (s : marco_fq_sched_data) (fid : Nat) : marco_fq_sched_data :=
  let tnp := (getFlow s fid).time_next_packet
  let s := { s with delayed := delayedInsert s.flows_tbl fid s.delayed,
                    throttled_flows := s.throttled_flows + 1,
                    stat_throttled := s.stat_throttled + 1 }
  if tnp < s.time_next_delayed_flow then { s with time_next_delayed_flow := tnp } else s

/-! ### Classification and enqueue -/

/-- Which flow an skb was classified into. -/
inductive FlowSel
  | internal
  | flow (sk : Nat)
  deriving DecidableEq

def readFlow (s : marco_fq_sched_data) : FlowSel → marco_fq_flow
  | .internal => s.internal
  | .flow fid => getFlow s fid

def writeFlow (s : marco_fq_sched_data) : FlowSel → marco_fq_flow → marco_fq_sched_data
  | .internal, f => { s with internal := f }
  | .flow fid, f => { s with flows_tbl := setFlow s.flows_tbl fid f }

/-- The flow identity marco_fq_classify searches for: the socket pointer,
or for socketless / listener / non-connected (TCP_CLOSE) packets the
orphan pseudo-identity `((hash & orphan_mask) << 1) | 1`. -/
def classifyId (s : marco_fq_sched_data) (skb : Packet) : Nat :=
  if skb.sk = 0 ∨ skb.sk_listener then 2 * (skb.hash &&& s.orphan_mask) + 1
  else if skb.sk_tcp_close then 2 * (skb.hash &&& s.orphan_mask) + 1
  else skb.sk

/-- marco_fq_classify.  Returns the selected flow, the (possibly orphaned)
skb, and the updated scheduler state.  `allocOk` models whether
`kmem_cache_zalloc` would succeed for a new flow record. -/
def marco_fq_classify (s : marco_fq_sched_data) (skb : Packet) (jiffies : Nat)
    (allocOk : Bool) : FlowSel × Packet × marco_fq_sched_data :=
  if skb.prio_control then (.internal, skb, s)
  else
    let sk := classifyId s skb
    -- skb_orphan clears skb->sk on the no-socket / listener path
    let skb := if skb.sk = 0 ∨ skb.sk_listener then { skb with sk := 0 } else skb
    let s := if 2 ^ (s.fq_trees_log + 1) ≤ s.flows ∧ s.flows / 2 < s.inactive_flows
             then marco_fq_gc s jiffies sk else s
    match lookupFlow s.flows_tbl sk with
    | some f =>
        if skb.sk = sk ∧ f.socket_hash ≠ skb.sk_hash then
          -- socket was reallocated: refill credit, unthrottle, reset pacing
          let f1 := { f with credit := (s.initial_quantum : Int), socket_hash := skb.sk_hash }
          let s1 := { s with flows_tbl := setFlow s.flows_tbl sk f1 }
          let s2 := if sk ∈ s1.delayed then marco_fq_flow_unset_throttled s1 sk else s1
          let s3 := { s2 with flows_tbl := setFlow s2.flows_tbl sk { f1 with time_next_packet := 0 } }
          (.flow sk, skb, s3)
        else (.flow sk, skb, s)
    | none =>
        if ¬ allocOk then
          (.internal, skb, { s with stat_allocation_errors := s.stat_allocation_errors + 1 })
        else
          let f := { zeroFlow with
            detached := true, age := jiffies ||| 1, sk := sk,
            socket_hash := if skb.sk = sk then skb.sk_hash else 0,
            credit := (s.initial_quantum : Int) }
          (.flow sk, skb,
            { s with flows_tbl := setFlow s.flows_tbl sk f,
                     flows := s.flows + 1,
                     inactive_flows := s.inactive_flows + 1 })

/-- marco_fq_packet_beyond_horizon: signed comparison of the u64 EDT
timestamp against `ktime_cache + horizon`. -/
def marco_fq_packet_beyond_horizon (skb : Packet) (s : marco_fq_sched_data) : Bool :=
  decide (toS64 (s.ktime_cache + s.horizon) < toS64 skb.tstamp)

/-- Return value of enqueue: NET_XMIT_SUCCESS, a drop code from
`qdisc_drop`, or the bare positive ENOMEM of the ip-count path. -/
inductive EnqResult
  | success
  | drop
  | enomem
  deriving DecidableEq

/-- Lookup of the enqueue-side ip_count_table scan (matches destination
then source of the packet). -/
def ipLookupEnq (tbl : List hash_ip_count) (skb : Packet) : Option hash_ip_count :=
  tbl.find? (fun e => e.d_ip == skb.d_ip && e.s_ip == skb.s_ip)

/-- `ip_count->count++` on the first matching entry. -/
def ipIncr : List hash_ip_count → Packet → List hash_ip_count
  | [], _ => []
  | e :: rest, skb =>
      if e.d_ip == skb.d_ip && e.s_ip == skb.s_ip then
        { e with count := e.count + 1 } :: rest
      else e :: ipIncr rest skb

/-- The tail of marco_fq_enqueue after the ip-count bookkeeping: insert the
skb into the flow, count internal packets, bump the global queue length. -/
def enqueueFinish (s : marco_fq_sched_data) (skb : Packet) (sel : FlowSel) :
    EnqResult × marco_fq_sched_data :=
  let s := writeFlow s sel (marco_flow_queue_add (readFlow s sel) skb)
  let s :=
    match sel with
    | .internal => { s with stat_internal_packets := s.stat_internal_packets + 1 }
    | .flow _ => s
  (.success, { s with qlen := s.qlen + 1 })

/-- marco_fq_enqueue from the point where the flow has been selected:
`f->qlen++`, backlog accounting, activation of a detached flow onto the
new-flows list with the refill-delay credit top-up, then the per-IP count
hack (whose allocation failure aborts the enqueue with a bare ENOMEM),
then packet insertion and the global counters. -/
def marco_fq_enqueue_rest (s : marco_fq_sched_data) (skb : Packet) (sel : FlowSel)
    (jiffies : Nat) (ipAllocOk : Bool) : EnqResult × marco_fq_sched_data :=
  let f := { readFlow s sel with qlen := (readFlow s sel).qlen + 1 }
  let s := writeFlow s sel f
  let s := { s with backlog := s.backlog + skb.len }
  let s :=
    if f.detached then
      let s :=
        match sel with
        | .flow fid => { s with new_flows := s.new_flows ++ [fid] }
        | .internal => s -- the internal flow's tag bit is never set
      let f2 := if time_after jiffies (f.age + s.flow_refill_delay)
                then { f with credit := creditRefill f.credit s.quantum } else f
      let s := writeFlow s sel f2
      { s with inactive_flows := s.inactive_flows - 1 }
    else s
  match ipLookupEnq s.ip_count_table skb with
  | some _ => enqueueFinish { s with ip_count_table := ipIncr s.ip_count_table skb } skb sel
  | none =>
      if ¬ ipAllocOk then (.enomem, s)
      else enqueueFinish
        { s with ip_count_table := ⟨skb.s_ip, skb.d_ip, 1⟩ :: s.ip_count_table } skb sel

/-- marco_fq_enqueue: global admission limit, timestamp assignment and
horizon policy, classification, per-flow limit, then
marco_fq_enqueue_rest. -/
def marco_fq_enqueue (s : marco_fq_sched_data) (skb : Packet) (now jiffies : Nat)
    (flowAllocOk ipAllocOk : Bool) : EnqResult × marco_fq_sched_data :=
  if s.limit ≤ s.qlen then (.drop, s)
  else
    let step1 : marco_fq_sched_data ⊕ (Packet × marco_fq_sched_data) :=
      if skb.tstamp = 0 then
        .inr ({ skb with time_to_send := now }, { s with ktime_cache := now })
      else if marco_fq_packet_beyond_horizon skb s then
        let s1 := { s with ktime_cache := now }
        if marco_fq_packet_beyond_horizon skb s1 then
          if s1.horizon_drop then
            .inl { s1 with stat_horizon_drops := s1.stat_horizon_drops + 1 }
          else
            let skb1 := { skb with tstamp := s1.ktime_cache + s1.horizon }
            .inr ({ skb1 with time_to_send := skb1.tstamp },
                  { s1 with stat_horizon_caps := s1.stat_horizon_caps + 1 })
        else .inr ({ skb with time_to_send := skb.tstamp }, s1)
      else .inr ({ skb with time_to_send := skb.tstamp }, s)
    match step1 with
    | .inl sdrop => (.drop, sdrop)
    | .inr (skb, s) =>
        let (sel, skb, s) := marco_fq_classify s skb jiffies flowAllocOk
        match sel with
        | .internal => marco_fq_enqueue_rest s skb .internal jiffies ipAllocOk
        | .flow fid =>
            if s.flow_plimit ≤ u32ofInt (getFlow s fid).qlen then
              (.drop, { s with stat_flows_plimit := s.stat_flows_plimit + 1 })
            else marco_fq_enqueue_rest s skb (.flow fid) jiffies ipAllocOk

/-! ### Throttle handling and dequeue -/

/-- The pop-all-due loop of marco_fq_check_throttled: unthrottle delayed
flows from the front (the rb-tree minimum) while their time_next_packet is
≤ now; at the first flow still in the future, record it as the next
delayed instant and stop. -/
def checkLoop (now : Nat) : Nat → marco_fq_sched_data → marco_fq_sched_data
  | 0, s => s
  | fuel + 1, s =>
      match s.delayed with
      | [] => s
      | fid :: _ =>
          if now < (getFlow s fid).time_next_packet then
            { s with time_next_delayed_flow := (getFlow s fid).time_next_packet }
          else checkLoop now fuel (marco_fq_flow_unset_throttled s fid)

/-- marco_fq_check_throttled: nothing to do while the earliest delayed
instant is still in the future; otherwise update the unthrottle-latency
EWMA (1/8 weight) and pop every due flow onto the old-flows list. -/
def marco_fq_check_throttled (s : marco_fq_sched_data) (now : Nat) : marco_fq_sched_data :=
  if now < s.time_next_delayed_flow then s
  else
    let sample := wsub64 now s.time_next_delayed_flow
    let s := { s with
      unthrottle_latency_ns := s.unthrottle_latency_ns - s.unthrottle_latency_ns / 8 + sample / 8,
      time_next_delayed_flow := U64MAX }
    checkLoop now s.delayed.length s

/-- The dequeue-side ip_count_table scan: an entry whose stored source is
the packet's destination and stored destination is the packet's source,
with a positive count.  (Pairs are unique in the table: the enqueue side
inserts only when absent.) -/
def ipLookupDeq (tbl : List hash_ip_count) (skb : Packet) : Option hash_ip_count :=
  tbl.find? (fun e => e.s_ip == skb.d_ip && e.d_ip == skb.s_ip && decide (0 < e.count))

/-- `ip_count->count--` on the matching entry of the dequeue-side scan. -/
def ipDecr : List hash_ip_count → Packet → List hash_ip_count
  | [], _ => []
  | e :: rest, skb =>
      if e.s_ip == skb.d_ip && e.d_ip == skb.s_ip && decide (0 < e.count) then
        { e with count := e.count - 1 } :: rest
      else e :: ipDecr rest skb

/-- The effective send time computed in marco_fq_dequeue: the max of the
packet's time_to_send and the flow's time_next_packet, plus the 10 ms
penalty of the per-IP hack when the reverse-direction count (after its
decrement) still exceeds 5. -/
def deqTimeNextPacket (s : marco_fq_sched_data) (f : marco_fq_flow) (skb : Packet) : Nat :=
  let t := max skb.time_to_send f.time_next_packet
  match ipLookupDeq s.ip_count_table skb with
  | some e => if 5 < e.count - 1 then t + 10000000 else t
  | none => t

/-- The persistent effect of the dequeue-side ip hack: the matching
entry's count is decremented. -/
def deqStepIp (s : marco_fq_sched_data) (skb : Packet) : marco_fq_sched_data :=
  match ipLookupDeq s.ip_count_table skb with
  | some _ => { s with ip_count_table := ipDecr s.ip_count_table skb }
  | none => s

/-- The CE-mark test `(s64)(now - time_next_packet - q->ce_threshold) > 0`. -/
def ceCond (s : marco_fq_sched_data) (now tnp : Nat) : Bool :=
  decide (0 < toS64 (wsub64 (wsub64 now tnp) s.ce_threshold))

/-- marco_fq_dequeue_skb: detach the peeked skb from its flow (fifo head
or rbtree minimum) and fix the flow and qdisc counters. -/
def marco_fq_dequeue_skb (s : marco_fq_sched_data) (sel : FlowSel) (skb : Packet) :
    marco_fq_sched_data :=
  let f := readFlow s sel
  let f := { flowRemovePeeked f with qlen := f.qlen - 1 }
  let s := writeFlow s sel f
  { s with backlog := s.backlog - skb.len, qlen := s.qlen - 1 }

/-- Result of one pass of the dequeue selection loop body (the code
between label `begin:` and the next `goto begin` / return). -/
inductive DeqStepRes
  | retry (s : marco_fq_sched_data)
  | nothingReady (s : marco_fq_sched_data)
  | out (skb : Packet) (fid : Nat) (s : marco_fq_sched_data)

/-- Head selection: the new-flows list first, else the old-flows list. -/
def fq_select (s : marco_fq_sched_data) : Option (Bool × Nat) :=
  match s.new_flows with
  | f :: _ => some (true, f)
  | [] =>
      match s.old_flows with
      | f :: _ => some (false, f)
      | [] => none

/-- `head->first = f->next` on whichever list supplied the flow. -/
def popSelected (s : marco_fq_sched_data) (fromNew : Bool) : marco_fq_sched_data :=
  if fromNew then { s with new_flows := s.new_flows.tail }
  else { s with old_flows := s.old_flows.tail }

/-- The credit-exhausted branch of the selection loop: refill by one
quantum, pop from the head of the list that supplied the flow, append to
the tail of the old-flows list. -/
def deqStepCredit (s : marco_fq_sched_data) (fromNew : Bool) (fid : Nat) :
    marco_fq_sched_data :=
  let f := getFlow s fid
  let s := writeFlow s (.flow fid) { f with credit := f.credit + (s.quantum : Int) }
  let s := popSelected s fromNew
  { s with old_flows := s.old_flows ++ [fid] }

/-- The not-yet-due branch: pop the flow, store its new effective send
time, and move it into the delayed tree. -/
def deqStepThrottle (s : marco_fq_sched_data) (fromNew : Bool) (fid tnp : Nat) :
    marco_fq_sched_data :=
  let s := popSelected s fromNew
  let s := writeFlow s (.flow fid) { getFlow s fid with time_next_packet := tnp }
  marco_fq_flow_set_throttled s fid

/-- The empty-flow branch: pop the flow; a new-list flow is rotated
through the old list (if non-empty) to prevent starvation, otherwise the
flow is detached. -/
def deqStepEmpty (s : marco_fq_sched_data) (fromNew : Bool) (fid jiffies : Nat) :
    marco_fq_sched_data :=
  let s := popSelected s fromNew
  if fromNew ∧ s.old_flows ≠ [] then { s with old_flows := s.old_flows ++ [fid] }
  else
    let s := writeFlow s (.flow fid) (marco_fq_flow_set_detached (getFlow s fid) jiffies)
    { s with inactive_flows := s.inactive_flows + 1 }

/-- One pass of the marco_fq_dequeue selection loop: credit
refill-and-rotate, the per-IP delay hack, throttling of not-yet-due flows,
CE marking and extraction of a ready packet, and demotion/detachment of
empty flows.  Arming of the watchdog on an empty round-robin is recorded
in `watchdog`. -/
def deqStep (s : marco_fq_sched_data) (now jiffies : Nat) : DeqStepRes :=
  match fq_select s with
  | none =>
      if s.time_next_delayed_flow ≠ U64MAX then
        .nothingReady { s with watchdog := some s.time_next_delayed_flow }
      else .nothingReady s
  | some (fromNew, fid) =>
      let f := getFlow s fid
      if f.credit ≤ 0 then .retry (deqStepCredit s fromNew fid)
      else
        match marco_fq_peek f with
        | some skb =>
            let tnp := deqTimeNextPacket s f skb
            let s := deqStepIp s skb
            if now < tnp then .retry (deqStepThrottle s fromNew fid tnp)
            else
              if ceCond s now tnp then
                let s := { s with stat_ce_mark := s.stat_ce_mark + 1 }
                .out { skb with ce := true } fid (marco_fq_dequeue_skb s (.flow fid) skb)
              else
                .out skb fid (marco_fq_dequeue_skb s (.flow fid) skb)
        | none => .retry (deqStepEmpty s fromNew fid jiffies)

/-- Number of quantum refills a flow needs before its credit is positive. -/
def rqN (c : Int) (q : Nat) : Nat := if 0 < c then 0 else (-c).toNat / q + 1

/-- Termination weight of one round-robin list entry. -/
def flowWeight (s : marco_fq_sched_data) (i : Nat) : Nat :=
  rqN (getFlow s i).credit s.quantum + 2

/-- Termination measure of the dequeue selection loop: every non-returning
pass strictly decreases it (when quantum > 0). -/
def deqMeasure (s : marco_fq_sched_data) : Nat :=
  (s.new_flows.map (fun i => flowWeight s i + 1)).sum +
    (s.old_flows.map (flowWeight s)).sum

/-- The `goto begin` loop of marco_fq_dequeue, with explicit fuel; `none`
means the fuel ran out. -/
def deqLoopF (now jiffies : Nat) :
    Nat → marco_fq_sched_data → Option (Option (Packet × Nat) × marco_fq_sched_data)
  | 0, _ => none
  | fuel + 1, s =>
      match deqStep s now jiffies with
      | .retry s' => deqLoopF now jiffies fuel s'
      | .nothingReady s' => some (none, s')
      | .out skb fid s' => some (some (skb, fid), s')

/-- The `if (rate != ~0UL)` block at the end of marco_fq_dequeue: compute
the pacing delay `plen * NSEC_PER_SEC / rate`, clamp it to one second
(counting clamps), subtract the drift correction, and store the flow's new
time_next_packet. -/
def deqFinishRate (s : marco_fq_sched_data) (fid plen rate now : Nat) :
    marco_fq_sched_data :=
  if rate ≠ U64MAX then
    let len0 := plen * NSEC_PER_SEC
    let len1 := if rate ≠ 0 then len0 / rate else len0
    let lenS : Nat × marco_fq_sched_data :=
      if NSEC_PER_SEC < len1 then
        (NSEC_PER_SEC, { s with stat_pkts_too_long := s.stat_pkts_too_long + 1 })
      else (len1, s)
    let s := lenS.2
    let f := getFlow s fid
    let len2 := if f.time_next_packet ≠ 0 then
                  lenS.1 - min (lenS.1 / 2) (wsub64 now f.time_next_packet)
                else lenS.1
    writeFlow s (.flow fid) { f with time_next_packet := now + len2 }
  else s

/-- The tail of marco_fq_dequeue once a packet has been extracted from
flow `fid`: charge the credit, and with pacing enabled compute the flow's
new time_next_packet; `goto out` paths return the state unchanged. -/
def deqFinish (s : marco_fq_sched_data) (fid : Nat) (skb : Packet) (now : Nat) :
    marco_fq_sched_data :=
  let plen := skb.len
  let f := { getFlow s fid with credit := (getFlow s fid).credit - (skb.len : Int) }
  let s := writeFlow s (.flow fid) f
  if ¬ s.rate_enable then s
  else
    let rate := s.flow_max_rate
    if skb.tstamp = 0 then
      let rate := if skb.sk ≠ 0 then min skb.sk_pacing_rate rate else rate
      if rate ≤ s.low_rate_threshold then
        deqFinishRate (writeFlow s (.flow fid) { f with credit := 0 }) fid plen rate now
      else
        let plen := max plen s.quantum
        if 0 < f.credit then s
        else deqFinishRate s fid plen rate now
    else deqFinishRate s fid plen rate now

/-- marco_fq_dequeue: nothing when empty; the internal flow is served
first unconditionally; otherwise refresh the time cache, release due
throttled flows, and run the selection loop (whose fuel, deqMeasure + 1,
is proven sufficient whenever quantum > 0; `none` models
non-termination of the C loop). -/
def marco_fq_dequeue (s : marco_fq_sched_data) (now jiffies : Nat) :
    Option (Option Packet × marco_fq_sched_data) :=
  if s.qlen = 0 then some (none, s)
  else
    match marco_fq_peek s.internal with
    | some skb => some (some skb, marco_fq_dequeue_skb s .internal skb)
    | none =>
        let s := { s with ktime_cache := now }
        let s := marco_fq_check_throttled s now
        match deqLoopF now jiffies (deqMeasure s + 1) s with
        | none => none
        | some (none, s') => some (none, s')
        | some (some (skb, fid), s') => some (some skb, deqFinish s' fid skb now)

/-! ### Reset, resize, change -/

/-- marco_fq_reset: zero the qdisc counters, purge the internal flow, and
(when the table exists) free every flow and empty every structure.  Note
the early return when `q->fq_root` is NULL leaves the lists and counters
alone. -/
def marco_fq_reset (s : marco_fq_sched_data) : marco_fq_sched_data :=
  let s := { s with qlen := 0, backlog := 0, internal := marco_fq_flow_purge s.internal }
  if ¬ s.fq_root_present then s
  else
    { s with flows_tbl := [], new_flows := [], old_flows := [], delayed := [],
             flows := 0, inactive_flows := 0, throttled_flows := 0 }

/-- marco_fq_rehash: re-insert every record into the new shard array,
freeing GC candidates met along the walk. -/
def marco_fq_rehash (s : marco_fq_sched_data) (jiffies : Nat) : marco_fq_sched_data :=
  let dead := (s.flows_tbl.filter (fun kv => marco_fq_gc_candidate kv.2 jiffies)).length
  { s with flows_tbl := s.flows_tbl.filter (fun kv => ¬ marco_fq_gc_candidate kv.2 jiffies),
           flows := s.flows - dead,
           inactive_flows := s.inactive_flows - dead,
           stat_gc_flows := s.stat_gc_flows + dead }

/-- marco_fq_resize: no-op when the log is unchanged; allocation failure
leaves the table untouched and reports an error; otherwise rehash into the
new array.  Returns (error?, state). -/
def marco_fq_resize (s : marco_fq_sched_data) (log jiffies : Nat) (allocOk : Bool) :
    Bool × marco_fq_sched_data :=
  if s.fq_root_present ∧ log = s.fq_trees_log then (false, s)
  else if ¬ allocOk then (true, s)
  else
    let s := if s.fq_root_present then marco_fq_rehash s jiffies else s
    (false, { s with fq_trees_log := log, fq_root_present := true })

/-- The netlink attributes a change message may carry (TCA_FQ_*). -/
structure fq_change_attrs where
  buckets_log : Option Nat := none
  plimit : Option Nat := none
  flow_plimit : Option Nat := none
  quantum : Option Nat := none
  initial_quantum : Option Nat := none
  flow_default_rate : Option Nat := none
  flow_max_rate : Option Nat := none
  low_rate_threshold : Option Nat := none
  rate_enable : Option Nat := none
  flow_refill_delay : Option Nat := none
  orphan_mask : Option Nat := none
  ce_threshold : Option Nat := none
  timer_slack : Option Nat := none
  horizon : Option Nat := none
  horizon_drop : Option Nat := none
  deriving DecidableEq

/-- The forced-drain loop at the end of marco_fq_change: dequeue (and
free) packets while the queue length exceeds the (possibly new) limit;
a NULL dequeue breaks. -/
def changeDrain : Nat → marco_fq_sched_data → Nat → Nat → marco_fq_sched_data
  | 0, s, _, _ => s
  | fuel + 1, s, now, jiffies =>
      if s.limit < s.qlen then
        match marco_fq_dequeue s now jiffies with
        | some (some _, s') => changeDrain fuel s' now jiffies
        | some (none, s') => s'
        | none => s
      else s

/-- `if (tb[TCA_FQ_X]) apply(nla_get_u32(tb[TCA_FQ_X]))`: apply the
present attribute, else keep the state. -/
def applyU32 (o : Option Nat) (g : Nat → marco_fq_sched_data → marco_fq_sched_data)
    (t : marco_fq_sched_data) : marco_fq_sched_data :=
  match o with
  | some v => g v t
  | none => t

/-- `TCA_FQ_BUCKETS_LOG`: accept 1..ilog2(256*1024) = 18 into the local
`fq_log`, else record EINVAL. -/
def applyBucketsLog (o : Option Nat) (deflt : Nat) (err : Bool) : Nat × Bool :=
  match o with
  | some nval => if 1 ≤ nval ∧ nval ≤ 18 then (nval, err) else (deflt, true)
  | none => (deflt, err)

/-- `TCA_FQ_QUANTUM`: accept 1..2^20, else record EINVAL and leave the
quantum untouched. -/
def applyQuantum (o : Option Nat) (t : marco_fq_sched_data) (err : Bool) :
    marco_fq_sched_data × Bool :=
  match o with
  | some q => if 0 < q ∧ q ≤ 1048576 then ({ t with quantum := q }, err) else (t, true)
  | none => (t, err)

/-- `TCA_FQ_RATE_ENABLE`: accept 0 or 1, else record EINVAL. -/
def applyRateEnable (o : Option Nat) (t : marco_fq_sched_data) (err : Bool) :
    marco_fq_sched_data × Bool :=
  match o with
  | some v => if v ≤ 1 then ({ t with rate_enable := decide (v = 1) }, err) else (t, true)
  | none => (t, err)

/-- marco_fq_change: apply each present attribute in source order,
remembering (but not stopping at) validation failures; resize only when
no error occurred; then force-drain down to the limit.  Returns
(error?, state). -/
def marco_fq_change (s : marco_fq_sched_data) (tb : fq_change_attrs) (now jiffies : Nat)
    (resizeAllocOk : Bool) : Bool × marco_fq_sched_data :=
  let logErr := applyBucketsLog tb.buckets_log s.fq_trees_log false
  let fq_log := logErr.1
  let err := logErr.2
  let s := applyU32 tb.plimit (fun v t => { t with limit := v }) s
  let s := applyU32 tb.flow_plimit (fun v t => { t with flow_plimit := v }) s
  let sErr := applyQuantum tb.quantum s err
  let s := sErr.1
  let err := sErr.2
  let s := applyU32 tb.initial_quantum (fun v t => { t with initial_quantum := v }) s
  -- TCA_FQ_FLOW_DEFAULT_RATE is parsed but ignored
  let s := applyU32 tb.flow_max_rate
    (fun v t => { t with flow_max_rate := if v = 4294967295 then U64MAX else v }) s
  let s := applyU32 tb.low_rate_threshold (fun v t => { t with low_rate_threshold := v }) s
  let sErr2 := applyRateEnable tb.rate_enable s err
  let s := sErr2.1
  let err := sErr2.2
  let s := applyU32 tb.flow_refill_delay
    (fun v t => { t with flow_refill_delay := usecs_to_jiffies v }) s
  let s := applyU32 tb.orphan_mask (fun v t => { t with orphan_mask := v }) s
  let s := applyU32 tb.ce_threshold
    (fun v t => { t with ce_threshold := NSEC_PER_USEC * v }) s
  let s := applyU32 tb.timer_slack (fun v t => { t with timer_slack := v }) s
  let s := applyU32 tb.horizon (fun v t => { t with horizon := NSEC_PER_USEC * v }) s
  let s := applyU32 tb.horizon_drop
    (fun v t => { t with horizon_drop := decide (v % 256 ≠ 0) }) s
  let errS : Bool × marco_fq_sched_data :=
    if ¬ err then marco_fq_resize s fq_log jiffies resizeAllocOk
    else (err, s)
  let err := errS.1
  let s := errS.2
  (err, changeDrain s.qlen s now jiffies)

/-! ### Flow-table lemmas -/

theorem lookupFlow_setFlow_self (tbl : List (Nat × marco_fq_flow)) (k : Nat)
    (v : marco_fq_flow) : lookupFlow (setFlow tbl k v) k = some v := by
  induction tbl with
  | nil => simp [setFlow, lookupFlow]
  | cons kv rest ih =>
      obtain ⟨k', w⟩ := kv
      by_cases h : k' = k
      · subst h; simp [setFlow, lookupFlow]
      · simp [setFlow, lookupFlow, h, ih]

theorem lookupFlow_setFlow_ne (tbl : List (Nat × marco_fq_flow)) (k k' : Nat)
    (v : marco_fq_flow) (h : k' ≠ k) :
    lookupFlow (setFlow tbl k v) k' = lookupFlow tbl k' := by
  induction tbl with
  | nil => simp [setFlow, lookupFlow, Ne.symm h]
  | cons kv rest ih =>
      obtain ⟨k'', w⟩ := kv
      by_cases hk : k'' = k
      · subst hk
        simp [setFlow, lookupFlow, Ne.symm h]
      · by_cases hq : k'' = k'
        · subst hq; simp [setFlow, lookupFlow, hk]
        · simp [setFlow, lookupFlow, hk, hq, ih]

theorem getFlow_writeFlow_self (s : marco_fq_sched_data) (fid : Nat) (F : marco_fq_flow) :
    getFlow (writeFlow s (.flow fid) F) fid = F := by
  simp [getFlow, writeFlow, lookupFlow_setFlow_self]

theorem getFlow_writeFlow_ne (s : marco_fq_sched_data) (fid : Nat) (F : marco_fq_flow)
    (i : Nat) (h : i ≠ fid) : getFlow (writeFlow s (.flow fid) F) i = getFlow s i := by
  simp [getFlow, writeFlow, lookupFlow_setFlow_ne _ _ _ _ h]

/-! ### Refill-count arithmetic -/

theorem rqN_ge_one (c : Int) (q : Nat) (hc : c ≤ 0) : 1 ≤ rqN c q := by
  unfold rqN
  rw [if_neg (by omega : ¬ 0 < c)]
  exact Nat.le_add_left 1 _

theorem rqN_add_quantum (c : Int) (q : Nat) (hc : c ≤ 0) (hq : 0 < q) :
    rqN (c + (q : Int)) q = rqN c q - 1 := by
  unfold rqN
  rw [if_neg (by omega : ¬ 0 < c)]
  by_cases h : 0 < c + (q : Int)
  · rw [if_pos h]
    have hlt : (-c).toNat < q := by omega
    rw [Nat.div_eq_of_lt hlt]
  · rw [if_neg h]
    have h1 : q ≤ (-c).toNat := by omega
    have h2 : (-(c + (q : Int))).toNat = (-c).toNat - q := by omega
    have h3 := Nat.div_eq_sub_div hq h1
    rw [h2, h3]
    rfl

/-! ### Reference states for concrete executions -/

/-- A scheduler state with the defaults of marco_fq_init (psched_mtu terms
taken at an MTU of 500 bytes), empty structures, and the table present. -/
def baseState : marco_fq_sched_data :=
  { new_flows := [], old_flows := [], delayed := [], time_next_delayed_flow := U64MAX,
    ktime_cache := 0, unthrottle_latency_ns := 0, internal := zeroFlow,
    quantum := 1000, initial_quantum := 10000, flow_refill_delay := 40,
    flow_plimit := 100, flow_max_rate := U64MAX,
    ce_threshold := NSEC_PER_USEC * 4294967295,
    horizon := 10 * NSEC_PER_SEC, orphan_mask := 1023, low_rate_threshold := 68750,
    fq_root_present := true, rate_enable := true, fq_trees_log := 10, horizon_drop := true,
    flows := 0, inactive_flows := 0, throttled_flows := 0,
    stat_gc_flows := 0, stat_internal_packets := 0, stat_throttled := 0, stat_ce_mark := 0,
    stat_horizon_drops := 0, stat_horizon_caps := 0, stat_flows_plimit := 0,
    stat_pkts_too_long := 0, stat_allocation_errors := 0,
    timer_slack := 10000, flows_tbl := [], qlen := 0, backlog := 0, limit := 10000,
    watchdog := none, ip_count_table := [] }

/-- A connected-socket packet with no EDT timestamp. -/
def basePacket : Packet :=
  { tstamp := 0, time_to_send := 0, len := 100, prio_control := false, sk := 4,
    sk_hash := 7, sk_listener := false, sk_tcp_close := false, sk_pacing_rate := 0,
    hash := 0, s_ip := 1, d_ip := 2, ce := false }

/-! ### Claim C2: credit refill and rotation in the dequeue loop -/

/-- C2: whenever the flow selected at the head of the new-list (else the
old-list) has credit ≤ 0, one pass of the dequeue selection loop adds
exactly one quantum to its credit, removes it from the head of its list,
appends it to the tail of the old-list (so a flow exhausted on the
new-list is demoted to the old-list and is never re-queued to the
new-list), and retries selection. -/
theorem marco_fq_dequeue_credit_refill (s : marco_fq_sched_data) (now jiffies : Nat)
    (b : Bool) (fid : Nat)
    (hsel : fq_select s = some (b, fid))
    (hc : (getFlow s fid).credit ≤ 0) :
    ∃ s', deqStep s now jiffies = DeqStepRes.retry s' ∧
      getFlow s' fid =
        { getFlow s fid with credit := (getFlow s fid).credit + (s.quantum : Int) } ∧
      s'.old_flows = (if b then s.old_flows else s.old_flows.tail) ++ [fid] ∧
      s'.new_flows = (if b then s.new_flows.tail else s.new_flows) ∧
      (fid ∉ s.new_flows.tail → fid ∉ s'.new_flows) := by
  have hstep : deqStep s now jiffies = DeqStepRes.retry (deqStepCredit s b fid) := by
    unfold deqStep
    rw [hsel]
    simp only [if_pos hc]
  refine ⟨deqStepCredit s b fid, hstep, ?_, ?_, ?_, ?_⟩
  · show getFlow (deqStepCredit s b fid) fid = _
    unfold deqStepCredit popSelected
    cases b <;> simp [getFlow_writeFlow_self, getFlow, writeFlow, lookupFlow_setFlow_self]
  · unfold deqStepCredit popSelected writeFlow
    cases b <;> simp
  · unfold deqStepCredit popSelected writeFlow
    cases b <;> simp
  · intro hni
    unfold deqStepCredit popSelected writeFlow
    cases b with
    | false =>
        -- selection fell through to the old list, so the new list is empty
        have hnew : s.new_flows = [] := by
          unfold fq_select at hsel
          cases hn : s.new_flows with
          | nil => rfl
          | cons a l => rw [hn] at hsel; simp at hsel
        simp [hnew]
    | true => simpa using hni

/-- Witness for C2 at a concrete state: flow 7 heads the new list with
credit -5 and quantum 100. -/
def c2State : marco_fq_sched_data :=
  { baseState with new_flows := [7], quantum := 100,
                   flows_tbl := [(7, { zeroFlow with sk := 7, credit := -5 })], flows := 1 }

theorem marco_fq_dequeue_credit_refill_witness :
    ∃ s', deqStep c2State 0 0 = DeqStepRes.retry s' ∧
      getFlow s' 7 =
        { getFlow c2State 7 with credit := (getFlow c2State 7).credit + (c2State.quantum : Int) } ∧
      s'.old_flows = (if true then c2State.old_flows else c2State.old_flows.tail) ++ [7] ∧
      s'.new_flows = (if true then c2State.new_flows.tail else c2State.new_flows) ∧
      (7 ∉ c2State.new_flows.tail → 7 ∉ s'.new_flows) :=
  marco_fq_dequeue_credit_refill c2State 0 0 true 7 (by decide) (by decide)

/-! ### Claim C8: reset is idempotent -/

/-- C8: marco_fq_reset is idempotent — calling it twice yields exactly the
state of calling it once — and (whenever the flow table exists, i.e.
whenever init completed) the result has zero flows, zero inactive and
throttled flows, zero backlog and queue length, empty new/old lists and an
empty deferral index. -/
theorem marco_fq_reset_idempotent (s : marco_fq_sched_data) :
    marco_fq_reset (marco_fq_reset s) = marco_fq_reset s ∧
    (s.fq_root_present = true →
      (marco_fq_reset s).flows = 0 ∧ (marco_fq_reset s).inactive_flows = 0 ∧
      (marco_fq_reset s).throttled_flows = 0 ∧ (marco_fq_reset s).backlog = 0 ∧
      (marco_fq_reset s).qlen = 0 ∧ (marco_fq_reset s).new_flows = [] ∧
      (marco_fq_reset s).old_flows = [] ∧ (marco_fq_reset s).delayed = []) := by
  by_cases h : s.fq_root_present
  · constructor
    · simp [marco_fq_reset, marco_fq_flow_purge, h]
    · intro _
      simp [marco_fq_reset, h]
  · constructor
    · simp [marco_fq_reset, marco_fq_flow_purge, h]
    · intro hcontra
      rw [hcontra] at h
      exact absurd rfl h

theorem marco_fq_reset_idempotent_witness :
    marco_fq_reset (marco_fq_reset baseState) = marco_fq_reset baseState ∧
    ((marco_fq_reset baseState).flows = 0 ∧ (marco_fq_reset baseState).inactive_flows = 0 ∧
      (marco_fq_reset baseState).throttled_flows = 0 ∧ (marco_fq_reset baseState).backlog = 0 ∧
      (marco_fq_reset baseState).qlen = 0 ∧ (marco_fq_reset baseState).new_flows = [] ∧
      (marco_fq_reset baseState).old_flows = [] ∧ (marco_fq_reset baseState).delayed = []) :=
  ⟨(marco_fq_reset_idempotent baseState).1, (marco_fq_reset_idempotent baseState).2 rfl⟩

/-! ### Claim C9: the ENOMEM path of the per-IP instrumentation -/

/-- The flow of the C9 execution: present in the table, attached, empty. -/
def c9Flow : marco_fq_flow := { zeroFlow with sk := 4, socket_hash := 7, credit := 10 }

/-- State for the C9 execution: one known flow, empty ip_count_table. -/
def c9State : marco_fq_sched_data :=
  { baseState with flows_tbl := [(4, c9Flow)], flows := 1 }

/-- C9 (implicit): an enqueue execution exists — the per-IP table needs a
new entry and its kmalloc fails — in which enqueue returns ENOMEM (nonzero
and not a drop code) after the target flow's queue length and the backlog
byte counter have been incremented, while the packet was never inserted
into the flow and the global queue length was never incremented: the
packet is neither queued nor freed and the counters are inconsistent with
the queue contents. -/
theorem marco_fq_enqueue_ip_alloc_inconsistency :
    (marco_fq_enqueue c9State basePacket 5 0 true false).1 = EnqResult.enomem ∧
    (marco_fq_enqueue c9State basePacket 5 0 true false).1 ≠ EnqResult.drop ∧
    (marco_fq_enqueue c9State basePacket 5 0 true false).1 ≠ EnqResult.success ∧
    (getFlow c9State 4).qlen = 0 ∧
    (getFlow (marco_fq_enqueue c9State basePacket 5 0 true false).2 4).qlen = 1 ∧
    c9State.backlog = 0 ∧
    (marco_fq_enqueue c9State basePacket 5 0 true false).2.backlog = basePacket.len ∧
    flowElems (getFlow (marco_fq_enqueue c9State basePacket 5 0 true false).2 4) = [] ∧
    (marco_fq_enqueue c9State basePacket 5 0 true false).2.qlen = c9State.qlen := by
  decide

/-! ### Claim C3: leaving the deferral index -/

/-- Shorthand: a flow's next allowed send instant. -/
def tnpOf (s : marco_fq_sched_data) (i : Nat) : Nat := (getFlow s i).time_next_packet

/-- The delayed tree invariant: in-order keys are non-decreasing. -/
def delayedSorted (s : marco_fq_sched_data) : Prop :=
  s.delayed.Pairwise (fun a b => tnpOf s a ≤ tnpOf s b)

/-- The tracked next-delayed instant is a lower bound of the tree keys. -/
def tndfLB (s : marco_fq_sched_data) : Prop :=
  ∀ f ∈ s.delayed, s.time_next_delayed_flow ≤ tnpOf s f

instance (s : marco_fq_sched_data) : Decidable (delayedSorted s) := by
  unfold delayedSorted; infer_instance

instance (s : marco_fq_sched_data) : Decidable (tndfLB s) := by
  unfold tndfLB; infer_instance

/-- Unfolding equation for one pass of the check-throttled loop. -/
theorem checkLoop_succ (now fuel : Nat) (s : marco_fq_sched_data) :
    checkLoop now (fuel + 1) s =
      match s.delayed with
      | [] => s
      | fid :: _ =>
          if now < (getFlow s fid).time_next_packet then
            { s with time_next_delayed_flow := (getFlow s fid).time_next_packet }
          else checkLoop now fuel (marco_fq_flow_unset_throttled s fid) := rfl

/-- Throttled state with flow 4 due at t = 100 whose socket identity has
been recycled (stored hash 9, packet hash 7). -/
def c3Flow : marco_fq_flow :=
  { zeroFlow with sk := 4, socket_hash := 9, credit := 5, time_next_packet := 100 }

def c3State : marco_fq_sched_data :=
  { baseState with flows_tbl := [(4, c3Flow)], flows := 1, delayed := [4],
                   throttled_flows := 1, time_next_delayed_flow := 100 }

/-- Counterexample to C3 as stated: an enqueue at current time 0 whose
classification hits the identity-reuse branch (socket hash mismatch)
removes flow 4 from the deferral index although its next_allowed_send is
100 > 0 — the flow does not leave "exactly when next_allowed_send ≤
current time" — and resets next_allowed_send to 0, which also allows a
dequeue before the original instant.  (It does land on the old-list.) -/
theorem marco_fq_throttle_exit_counterexample :
    4 ∈ c3State.delayed ∧
    tnpOf c3State 4 = 100 ∧
    (0 : Nat) < 100 ∧
    4 ∉ (marco_fq_enqueue c3State basePacket 0 0 true true).2.delayed ∧
    4 ∈ (marco_fq_enqueue c3State basePacket 0 0 true true).2.old_flows ∧
    tnpOf (marco_fq_enqueue c3State basePacket 0 0 true true).2 4 = 0 := by
  decide

theorem checkLoop_spec (now : Nat) : ∀ (fuel : Nat) (s : marco_fq_sched_data),
    s.delayed.length ≤ fuel → delayedSorted s →
    (checkLoop now fuel s).delayed = s.delayed.filter (fun i => now < tnpOf s i) ∧
    (checkLoop now fuel s).old_flows =
      s.old_flows ++ s.delayed.filter (fun i => tnpOf s i ≤ now) ∧
    (checkLoop now fuel s).new_flows = s.new_flows := by
  intro fuel
  induction fuel with
  | zero =>
      intro s hlen _
      have hnil : s.delayed = [] := List.length_eq_zero.mp (Nat.le_zero.mp hlen)
      simp [checkLoop, hnil]
  | succ fuel ih =>
      intro s hlen hs
      cases hd : s.delayed with
      | nil => simp [checkLoop, hd]
      | cons fid rest =>
          have hs0 : (fid :: rest).Pairwise (fun a b => tnpOf s a ≤ tnpOf s b) := by
            have hp := hs
            unfold delayedSorted at hp
            rwa [hd] at hp
          rcases List.pairwise_cons.mp hs0 with ⟨hhead, _⟩
          by_cases hc : now < tnpOf s fid
          · have hall : ∀ j ∈ rest, now < tnpOf s j :=
              fun j hj => lt_of_lt_of_le hc (hhead j hj)
            have h1 : (fid :: rest).filter (fun i => decide (now < tnpOf s i)) = fid :: rest := by
              rw [List.filter_eq_self]
              intro j hj
              rcases List.mem_cons.mp hj with rfl | hj2
              · exact decide_eq_true hc
              · exact decide_eq_true (hall j hj2)
            have h2 : (fid :: rest).filter (fun i => decide (tnpOf s i ≤ now)) = [] := by
              rw [List.filter_eq_nil]
              intro j hj
              rcases List.mem_cons.mp hj with rfl | hj2
              · simpa using not_le.mpr hc
              · simpa using not_le.mpr (hall j hj2)
            rw [checkLoop_succ, hd]
            dsimp only
            rw [if_pos (show now < (getFlow s fid).time_next_packet from hc)]
            rw [h1, h2, List.append_nil]
            exact ⟨rfl, rfl, rfl⟩
          · -- the head flow is due: it is unthrottled onto the old list
            have hle : tnpOf s fid ≤ now := not_lt.mp hc
            have herase : s.delayed.erase fid = rest := by rw [hd]; simp
            have hlen2 : (marco_fq_flow_unset_throttled s fid).delayed.length ≤ fuel := by
              show (s.delayed.erase fid).length ≤ fuel
              rw [herase]
              have := hlen
              rw [hd] at this
              simpa using Nat.lt_succ_iff.mp (Nat.lt_of_lt_of_le (by simp) this)
            have hs2 : delayedSorted (marco_fq_flow_unset_throttled s fid) := by
              show ((s.delayed.erase fid).Pairwise _)
              rw [herase]
              exact (List.pairwise_cons.mp hs0).2
            have hrec := ih (marco_fq_flow_unset_throttled s fid) hlen2 hs2
            rw [checkLoop_succ, hd]
            dsimp only
            rw [if_neg (show ¬ now < (getFlow s fid).time_next_packet from hc)]
            have hdel2 : (marco_fq_flow_unset_throttled s fid).delayed = rest := herase
            have hold2 : (marco_fq_flow_unset_throttled s fid).old_flows =
                s.old_flows ++ [fid] := rfl
            have hnew2 : (marco_fq_flow_unset_throttled s fid).new_flows = s.new_flows := rfl
            have htnp : ∀ i, tnpOf (marco_fq_flow_unset_throttled s fid) i = tnpOf s i :=
              fun _ => rfl
            rw [hdel2, hold2, hnew2] at hrec
            simp only [htnp] at hrec
            obtain ⟨r1, r2, r3⟩ := hrec
            refine ⟨?_, ?_, r3⟩
            · rw [r1]
              have : (fid :: rest).filter (fun i => decide (now < tnpOf s i)) =
                  rest.filter (fun i => decide (now < tnpOf s i)) := by
                simp [List.filter_cons, hc]
              rw [this]
            · rw [r2]
              have : (fid :: rest).filter (fun i => decide (tnpOf s i ≤ now)) =
                  fid :: rest.filter (fun i => decide (tnpOf s i ≤ now)) := by
                simp [List.filter_cons, hle]
              rw [this, List.append_assoc]
              rfl

/-- C3 amended: a throttled flow leaves the deferral index through
marco_fq_check_throttled exactly when its next_allowed_send
(time_next_packet) is ≤ the current time, and every flow that leaves the
index — including through the classify identity-reuse path — is appended
to the old-list, never the new-list (marco_fq_flow_unset_throttled is the
only exit and it targets the old-list). -/
theorem marco_fq_check_throttled_exact (s : marco_fq_sched_data) (now : Nat)
    (hs : delayedSorted s) (hlb : tndfLB s) :
    (marco_fq_check_throttled s now).delayed =
      s.delayed.filter (fun i => now < tnpOf s i) ∧
    (marco_fq_check_throttled s now).old_flows =
      s.old_flows ++ s.delayed.filter (fun i => tnpOf s i ≤ now) ∧
    (marco_fq_check_throttled s now).new_flows = s.new_flows ∧
    (∀ (t : marco_fq_sched_data) (fid : Nat),
      (marco_fq_flow_unset_throttled t fid).old_flows = t.old_flows ++ [fid] ∧
      (marco_fq_flow_unset_throttled t fid).new_flows = t.new_flows) := by
  have main :
      (marco_fq_check_throttled s now).delayed =
        s.delayed.filter (fun i => now < tnpOf s i) ∧
      (marco_fq_check_throttled s now).old_flows =
        s.old_flows ++ s.delayed.filter (fun i => tnpOf s i ≤ now) ∧
      (marco_fq_check_throttled s now).new_flows = s.new_flows := by
    unfold marco_fq_check_throttled
    by_cases hret : now < s.time_next_delayed_flow
    · rw [if_pos hret]
      have hall : ∀ j ∈ s.delayed, now < tnpOf s j :=
        fun j hj => lt_of_lt_of_le hret (hlb j hj)
      have h1 : s.delayed.filter (fun i => decide (now < tnpOf s i)) = s.delayed := by
        rw [List.filter_eq_self]
        exact fun j hj => decide_eq_true (hall j hj)
      have h2 : s.delayed.filter (fun i => decide (tnpOf s i ≤ now)) = [] := by
        rw [List.filter_eq_nil]
        exact fun j hj => by simpa using not_le.mpr (hall j hj)
      rw [h1, h2, List.append_nil]
      exact ⟨rfl, rfl, rfl⟩
    · rw [if_neg hret]
      have := checkLoop_spec now s.delayed.length
        { s with
            unthrottle_latency_ns :=
              s.unthrottle_latency_ns - s.unthrottle_latency_ns / 8 +
                wsub64 now s.time_next_delayed_flow / 8,
            time_next_delayed_flow := U64MAX }
        (le_refl _) hs
      exact this
  exact ⟨main.1, main.2.1, main.2.2, fun t fid => ⟨rfl, rfl⟩⟩

/-- Witness for the amended C3: two throttled flows due at 10 and 100,
checked at time 50 — flow 1 leaves to the old list, flow 2 stays. -/
def c3wState : marco_fq_sched_data :=
  { baseState with
      flows_tbl := [(1, { zeroFlow with sk := 1, time_next_packet := 10 }),
                    (2, { zeroFlow with sk := 2, time_next_packet := 100 })],
      flows := 2, delayed := [1, 2], throttled_flows := 2, time_next_delayed_flow := 10 }

theorem marco_fq_check_throttled_exact_witness :
    (marco_fq_check_throttled c3wState 50).delayed =
      c3wState.delayed.filter (fun i => 50 < tnpOf c3wState i) ∧
    (marco_fq_check_throttled c3wState 50).old_flows =
      c3wState.old_flows ++ c3wState.delayed.filter (fun i => tnpOf c3wState i ≤ 50) ∧
    (marco_fq_check_throttled c3wState 50).new_flows = c3wState.new_flows ∧
    (∀ (t : marco_fq_sched_data) (fid : Nat),
      (marco_fq_flow_unset_throttled t fid).old_flows = t.old_flows ++ [fid] ∧
      (marco_fq_flow_unset_throttled t fid).new_flows = t.new_flows) :=
  marco_fq_check_throttled_exact c3wState 50 (by decide) (by decide)

/-! ### Configuration preservation through dequeue -/

/-- The configuration parameters of the scheduler, bundled. -/
def cfgOf (s : marco_fq_sched_data) :=
  (s.quantum, s.initial_quantum, s.flow_refill_delay, s.flow_plimit, s.flow_max_rate,
   s.ce_threshold, s.horizon, s.orphan_mask, s.low_rate_threshold, s.fq_root_present,
   s.rate_enable, s.fq_trees_log, s.horizon_drop, s.timer_slack, s.limit)

/-- The state carried by a selection-loop outcome. -/
def resState : DeqStepRes → marco_fq_sched_data
  | .retry t => t
  | .nothingReady t => t
  | .out _ _ t => t

theorem cfgOf_deqStepCredit (s : marco_fq_sched_data) (b : Bool) (fid : Nat) :
    cfgOf (deqStepCredit s b fid) = cfgOf s := by
  unfold deqStepCredit popSelected writeFlow
  cases b <;> rfl

theorem cfgOf_deqStepIp (s : marco_fq_sched_data) (skb : Packet) :
    cfgOf (deqStepIp s skb) = cfgOf s := by
  unfold deqStepIp
  split <;> rfl

theorem cfgOf_deqStepThrottle (s : marco_fq_sched_data) (b : Bool) (fid tnp : Nat) :
    cfgOf (deqStepThrottle s b fid tnp) = cfgOf s := by
  unfold deqStepThrottle marco_fq_flow_set_throttled popSelected writeFlow
  cases b <;> dsimp only <;> (repeat' split) <;> rfl

theorem cfgOf_deqStepEmpty (s : marco_fq_sched_data) (b : Bool) (fid jiffies : Nat) :
    cfgOf (deqStepEmpty s b fid jiffies) = cfgOf s := by
  unfold deqStepEmpty popSelected writeFlow
  cases b <;> dsimp only <;> (repeat' split) <;> rfl

theorem cfgOf_dequeue_skb (s : marco_fq_sched_data) (sel : FlowSel) (skb : Packet) :
    cfgOf (marco_fq_dequeue_skb s sel skb) = cfgOf s := by
  unfold marco_fq_dequeue_skb writeFlow
  cases sel <;> rfl

theorem cfgOf_deqStep (s : marco_fq_sched_data) (now jiffies : Nat) :
    cfgOf (resState (deqStep s now jiffies)) = cfgOf s := by
  unfold deqStep
  cases hsel : fq_select s with
  | none =>
      dsimp only
      split <;> rfl
  | some bf =>
      obtain ⟨b, fid⟩ := bf
      dsimp only
      by_cases hc : (getFlow s fid).credit ≤ 0
      · rw [if_pos hc]
        exact cfgOf_deqStepCredit s b fid
      · rw [if_neg hc]
        cases hp : marco_fq_peek (getFlow s fid) with
        | some skb =>
            dsimp only
            by_cases ht : now < deqTimeNextPacket s (getFlow s fid) skb
            · rw [if_pos ht]
              exact (cfgOf_deqStepThrottle _ b fid _).trans (cfgOf_deqStepIp s skb)
            · rw [if_neg ht]
              by_cases hce : ceCond (deqStepIp s skb) now
                  (deqTimeNextPacket s (getFlow s fid) skb)
              · rw [if_pos hce]
                exact (cfgOf_dequeue_skb _ _ _).trans (cfgOf_deqStepIp s skb)
              · rw [if_neg hce]
                exact (cfgOf_dequeue_skb _ _ _).trans (cfgOf_deqStepIp s skb)
        | none =>
            dsimp only
            exact cfgOf_deqStepEmpty s b fid jiffies

theorem cfgOf_checkLoop (now : Nat) :
    ∀ (fuel : Nat) (s : marco_fq_sched_data), cfgOf (checkLoop now fuel s) = cfgOf s := by
  intro fuel
  induction fuel with
  | zero => intro s; rfl
  | succ fuel ih =>
      intro s
      rw [checkLoop_succ]
      cases s.delayed with
      | nil => rfl
      | cons fid rest =>
          dsimp only
          split
          · rfl
          · exact (ih _).trans rfl

theorem cfgOf_check_throttled (s : marco_fq_sched_data) (now : Nat) :
    cfgOf (marco_fq_check_throttled s now) = cfgOf s := by
  unfold marco_fq_check_throttled
  split
  · rfl
  · exact (cfgOf_checkLoop now _ _).trans rfl

theorem cfgOf_deqLoopF (now jiffies : Nat) :
    ∀ (fuel : Nat) (s : marco_fq_sched_data) (r : Option (Packet × Nat))
      (s' : marco_fq_sched_data),
      deqLoopF now jiffies fuel s = some (r, s') → cfgOf s' = cfgOf s := by
  intro fuel
  induction fuel with
  | zero => intro s r s' h; simp [deqLoopF] at h
  | succ fuel ih =>
      intro s r s' h
      unfold deqLoopF at h
      cases hstep : deqStep s now jiffies with
      | retry t =>
          rw [hstep] at h
          have h1 := ih t r s' h
          have h2 : cfgOf t = cfgOf s := by
            have := cfgOf_deqStep s now jiffies
            rw [hstep] at this
            exact this
          exact h1.trans h2
      | nothingReady t =>
          rw [hstep] at h
          injection h with h
          injection h with hr hs'
          subst hs'
          have := cfgOf_deqStep s now jiffies
          rw [hstep] at this
          exact this
      | out skb fid t =>
          rw [hstep] at h
          injection h with h
          injection h with hr hs'
          subst hs'
          have := cfgOf_deqStep s now jiffies
          rw [hstep] at this
          exact this

theorem cfgOf_deqFinishRate (s : marco_fq_sched_data) (fid plen rate now : Nat) :
    cfgOf (deqFinishRate s fid plen rate now) = cfgOf s := by
  unfold deqFinishRate writeFlow
  by_cases hr : rate ≠ U64MAX
  · rw [if_pos hr]
    dsimp only
    by_cases hclamp : NSEC_PER_SEC < (if rate ≠ 0 then plen * NSEC_PER_SEC / rate
        else plen * NSEC_PER_SEC)
    · rw [if_pos hclamp]; rfl
    · rw [if_neg hclamp]; rfl
  · rw [if_neg hr]

theorem cfgOf_deqFinish (s : marco_fq_sched_data) (fid : Nat) (skb : Packet) (now : Nat) :
    cfgOf (deqFinish s fid skb now) = cfgOf s := by
  unfold deqFinish
  dsimp only
  (repeat' split) <;>
    first
      | rfl
      | exact (cfgOf_deqFinishRate _ fid _ _ now).trans rfl

theorem cfgOf_dequeue (s : marco_fq_sched_data) (now jiffies : Nat)
    (p : Option Packet) (s' : marco_fq_sched_data)
    (h : marco_fq_dequeue s now jiffies = some (p, s')) : cfgOf s' = cfgOf s := by
  unfold marco_fq_dequeue at h
  by_cases hz : s.qlen = 0
  · rw [if_pos hz] at h
    injection h with h
    injection h with hp hs'
    subst hs'
    rfl
  · rw [if_neg hz] at h
    cases hpk : marco_fq_peek s.internal with
    | some skb =>
        rw [hpk] at h
        injection h with h
        injection h with hp hs'
        subst hs'
        exact cfgOf_dequeue_skb s .internal skb
    | none =>
        rw [hpk] at h
        dsimp only at h
        cases hloop : deqLoopF now jiffies
            (deqMeasure (marco_fq_check_throttled { s with ktime_cache := now } now) + 1)
            (marco_fq_check_throttled { s with ktime_cache := now } now) with
        | none => rw [hloop] at h; exact absurd h (by simp)
        | some rs =>
            obtain ⟨r, t⟩ := rs
            rw [hloop] at h
            have hbase : cfgOf t = cfgOf s := by
              have h1 := cfgOf_deqLoopF now jiffies _ _ r t hloop
              have h2 := cfgOf_check_throttled { s with ktime_cache := now } now
              exact h1.trans (h2.trans rfl)
            cases r with
            | none =>
                dsimp only at h
                injection h with h
                injection h with hp hs'
                subst hs'
                exact hbase
            | some pr =>
                obtain ⟨skb, fid⟩ := pr
                dsimp only at h
                injection h with h
                injection h with hp hs'
                subst hs'
                exact (cfgOf_deqFinish t fid skb now).trans hbase

theorem cfgOf_changeDrain (now jiffies : Nat) :
    ∀ (fuel : Nat) (s : marco_fq_sched_data),
      cfgOf (changeDrain fuel s now jiffies) = cfgOf s := by
  intro fuel
  induction fuel with
  | zero => intro s; rfl
  | succ fuel ih =>
      intro s
      unfold changeDrain
      split
      · cases hdq : marco_fq_dequeue s now jiffies with
        | none => rfl
        | some ps =>
            obtain ⟨p, s'⟩ := ps
            cases p with
            | none => exact cfgOf_dequeue s now jiffies none s' hdq
            | some skb => exact (ih s').trans (cfgOf_dequeue s now jiffies _ s' hdq)
      · rfl

/-! ### Claim C4: invalid configuration deltas -/

theorem applyU32_quantum (o : Option Nat)
    (g : Nat → marco_fq_sched_data → marco_fq_sched_data)
    (t : marco_fq_sched_data) (h : ∀ v, (g v t).quantum = t.quantum) :
    (applyU32 o g t).quantum = t.quantum := by
  cases o with
  | none => rfl
  | some v => exact h v

theorem applyU32_trees_log (o : Option Nat)
    (g : Nat → marco_fq_sched_data → marco_fq_sched_data)
    (t : marco_fq_sched_data) (h : ∀ v, (g v t).fq_trees_log = t.fq_trees_log) :
    (applyU32 o g t).fq_trees_log = t.fq_trees_log := by
  cases o with
  | none => rfl
  | some v => exact h v

theorem applyU32_limit (o : Option Nat)
    (g : Nat → marco_fq_sched_data → marco_fq_sched_data)
    (t : marco_fq_sched_data) (h : ∀ v, (g v t).limit = t.limit) :
    (applyU32 o g t).limit = t.limit := by
  cases o with
  | none => rfl
  | some v => exact h v

theorem applyU32_initial_quantum (o : Option Nat)
    (g : Nat → marco_fq_sched_data → marco_fq_sched_data)
    (t : marco_fq_sched_data) (h : ∀ v, (g v t).initial_quantum = t.initial_quantum) :
    (applyU32 o g t).initial_quantum = t.initial_quantum := by
  cases o with
  | none => rfl
  | some v => exact h v

theorem applyU32_self_limit (o : Option Nat) (t : marco_fq_sched_data) :
    (applyU32 o (fun v t => { t with limit := v }) t).limit = o.getD t.limit := by
  cases o <;> rfl

theorem applyU32_self_initial_quantum (o : Option Nat) (t : marco_fq_sched_data) :
    (applyU32 o (fun v t => { t with initial_quantum := v }) t).initial_quantum =
      o.getD t.initial_quantum := by
  cases o <;> rfl

theorem applyQuantum_invalid (v : Nat) (t : marco_fq_sched_data) (err : Bool)
    (hv : ¬ (0 < v ∧ v ≤ 1048576)) : applyQuantum (some v) t err = (t, true) := by
  unfold applyQuantum
  dsimp only
  rw [if_neg hv]

theorem changeDrain_quantum (now jiffies fuel : Nat) (t : marco_fq_sched_data) :
    (changeDrain fuel t now jiffies).quantum = t.quantum :=
  congrArg (·.1) (cfgOf_changeDrain now jiffies fuel t)

theorem changeDrain_trees_log (now jiffies fuel : Nat) (t : marco_fq_sched_data) :
    (changeDrain fuel t now jiffies).fq_trees_log = t.fq_trees_log :=
  congrArg (·.2.2.2.2.2.2.2.2.2.2.2.1) (cfgOf_changeDrain now jiffies fuel t)

theorem changeDrain_limit (now jiffies fuel : Nat) (t : marco_fq_sched_data) :
    (changeDrain fuel t now jiffies).limit = t.limit :=
  congrArg (·.2.2.2.2.2.2.2.2.2.2.2.2.2.2) (cfgOf_changeDrain now jiffies fuel t)

theorem changeDrain_initial_quantum (now jiffies fuel : Nat) (t : marco_fq_sched_data) :
    (changeDrain fuel t now jiffies).initial_quantum = t.initial_quantum :=
  congrArg (·.2.1) (cfgOf_changeDrain now jiffies fuel t)

theorem applyRateEnable_err (o : Option Nat) (t : marco_fq_sched_data) :
    (applyRateEnable o t true).2 = true := by
  unfold applyRateEnable
  cases o with
  | none => rfl
  | some v => dsimp only; split <;> rfl

theorem applyRateEnable_quantum (o : Option Nat) (t : marco_fq_sched_data) (err : Bool) :
    (applyRateEnable o t err).1.quantum = t.quantum := by
  unfold applyRateEnable
  cases o with
  | none => rfl
  | some v => dsimp only; split <;> rfl

theorem applyRateEnable_trees_log (o : Option Nat) (t : marco_fq_sched_data) (err : Bool) :
    (applyRateEnable o t err).1.fq_trees_log = t.fq_trees_log := by
  unfold applyRateEnable
  cases o with
  | none => rfl
  | some v => dsimp only; split <;> rfl

theorem applyRateEnable_limit (o : Option Nat) (t : marco_fq_sched_data) (err : Bool) :
    (applyRateEnable o t err).1.limit = t.limit := by
  unfold applyRateEnable
  cases o with
  | none => rfl
  | some v => dsimp only; split <;> rfl

theorem applyRateEnable_initial_quantum (o : Option Nat) (t : marco_fq_sched_data)
    (err : Bool) : (applyRateEnable o t err).1.initial_quantum = t.initial_quantum := by
  unfold applyRateEnable
  cases o with
  | none => rfl
  | some v => dsimp only; split <;> rfl

/-- C4 amended: a delta carrying an invalid quantum (zero or above 2^20)
makes marco_fq_change return an error, and neither the quantum nor the
shard/buckets exponent is changed (the resize is skipped on error); but
the other parameters present in the same delta ARE applied — e.g. the
total packet limit and the initial quantum take the delta's values — so
partial application does occur. -/
theorem marco_fq_change_invalid_quantum (s : marco_fq_sched_data) (tb : fq_change_attrs)
    (now jiffies : Nat) (rok : Bool) (v : Nat)
    (hq : tb.quantum = some v) (hv : v = 0 ∨ 1048576 < v) :
    (marco_fq_change s tb now jiffies rok).1 = true ∧
    (marco_fq_change s tb now jiffies rok).2.quantum = s.quantum ∧
    (marco_fq_change s tb now jiffies rok).2.fq_trees_log = s.fq_trees_log ∧
    (marco_fq_change s tb now jiffies rok).2.limit = tb.plimit.getD s.limit ∧
    (marco_fq_change s tb now jiffies rok).2.initial_quantum =
      tb.initial_quantum.getD s.initial_quantum := by
  have hv' : ¬ (0 < v ∧ v ≤ 1048576) := by
    rcases hv with h | h
    · omega
    · omega
  unfold marco_fq_change
  dsimp only
  rw [hq, applyQuantum_invalid v _ _ hv']
  dsimp only
  rw [applyRateEnable_err]
  rw [if_neg (by simp : ¬ (¬ true = true))]
  dsimp only
  refine ⟨rfl, ?_, ?_, ?_, ?_⟩
  · rw [changeDrain_quantum]
    repeat rw [applyU32_quantum _ _ _ (fun _ => rfl)]
    rw [applyRateEnable_quantum]
    repeat rw [applyU32_quantum _ _ _ (fun _ => rfl)]
  · rw [changeDrain_trees_log]
    repeat rw [applyU32_trees_log _ _ _ (fun _ => rfl)]
    rw [applyRateEnable_trees_log]
    repeat rw [applyU32_trees_log _ _ _ (fun _ => rfl)]
  · rw [changeDrain_limit]
    repeat rw [applyU32_limit _ _ _ (fun _ => rfl)]
    rw [applyRateEnable_limit]
    repeat rw [applyU32_limit _ _ _ (fun _ => rfl)]
    rw [applyU32_self_limit]
  · rw [changeDrain_initial_quantum]
    repeat rw [applyU32_initial_quantum _ _ _ (fun _ => rfl)]
    rw [applyRateEnable_initial_quantum]
    repeat rw [applyU32_initial_quantum _ _ _ (fun _ => rfl)]
    rw [applyU32_self_initial_quantum]
    repeat rw [applyU32_initial_quantum _ _ _ (fun _ => rfl)]

/-- A delta carrying an invalid quantum (0) together with a valid
initial quantum (777). -/
def c4Delta : fq_change_attrs := { quantum := some 0, initial_quantum := some 777 }

def c4State : marco_fq_sched_data := { baseState with initial_quantum := 1 }

/-- Counterexample to C4 as stated: on a delta with quantum = 0 and
initial_quantum = 777, marco_fq_change returns an error AND still applies
the initial_quantum from the delta (1 becomes 777): the other parameters
are not left unchanged, partial application does happen. -/
theorem marco_fq_change_partial_application_counterexample :
    (marco_fq_change c4State c4Delta 0 0 true).1 = true ∧
    c4State.initial_quantum = 1 ∧
    (marco_fq_change c4State c4Delta 0 0 true).2.initial_quantum = 777 := by
  decide

theorem marco_fq_change_invalid_quantum_witness :
    (marco_fq_change c4State c4Delta 0 0 true).1 = true ∧
    (marco_fq_change c4State c4Delta 0 0 true).2.quantum = c4State.quantum ∧
    (marco_fq_change c4State c4Delta 0 0 true).2.fq_trees_log = c4State.fq_trees_log ∧
    (marco_fq_change c4State c4Delta 0 0 true).2.limit = c4Delta.plimit.getD c4State.limit ∧
    (marco_fq_change c4State c4Delta 0 0 true).2.initial_quantum =
      c4Delta.initial_quantum.getD c4State.initial_quantum :=
  marco_fq_change_invalid_quantum c4State c4Delta 0 0 true 0 rfl (Or.inl rfl)

/-! ### Claim C5: congestion-experienced marking -/

theorem ceCond_deqStepIp (s : marco_fq_sched_data) (skb : Packet) (now t : Nat) :
    ceCond (deqStepIp s skb) now t = ceCond s now t := by
  unfold deqStepIp
  split <;> rfl

theorem stat_ce_dequeue_skb (s : marco_fq_sched_data) (sel : FlowSel) (skb : Packet) :
    (marco_fq_dequeue_skb s sel skb).stat_ce_mark = s.stat_ce_mark := by
  unfold marco_fq_dequeue_skb writeFlow
  cases sel <;> rfl

theorem stat_ce_deqStepIp (s : marco_fq_sched_data) (skb : Packet) :
    (deqStepIp s skb).stat_ce_mark = s.stat_ce_mark := by
  unfold deqStepIp
  split <;> rfl

/-- C5 amended: when the dequeue loop serves a ready packet, the packet is
CE-marked and the CE counter incremented if and only if the actual send
time `now` exceeds the packet's effective send time by more than the
configured ce_threshold (the signed 64-bit test
`(s64)(now - time_next_packet - ce_threshold) > 0`) — INDEPENDENTLY of
whether pacing (rate_enable) is on: nothing in the hypotheses or the
marking condition involves rate_enable. -/
theorem marco_fq_ce_mark_condition (s : marco_fq_sched_data) (now jiffies : Nat)
    (b : Bool) (fid : Nat) (skb : Packet)
    (hsel : fq_select s = some (b, fid))
    (hc : 0 < (getFlow s fid).credit)
    (hp : marco_fq_peek (getFlow s fid) = some skb)
    (hready : deqTimeNextPacket s (getFlow s fid) skb ≤ now) :
    ∃ skb' s', deqStep s now jiffies = DeqStepRes.out skb' fid s' ∧
      skb'.ce = (skb.ce || ceCond s now (deqTimeNextPacket s (getFlow s fid) skb)) ∧
      s'.stat_ce_mark = s.stat_ce_mark +
        (if ceCond s now (deqTimeNextPacket s (getFlow s fid) skb) then 1 else 0) := by
  have hstep : deqStep s now jiffies =
      (if ceCond (deqStepIp s skb) now (deqTimeNextPacket s (getFlow s fid) skb) then
        DeqStepRes.out { skb with ce := true } fid
          (marco_fq_dequeue_skb
            { deqStepIp s skb with stat_ce_mark := (deqStepIp s skb).stat_ce_mark + 1 }
            (.flow fid) skb)
      else
        DeqStepRes.out skb fid (marco_fq_dequeue_skb (deqStepIp s skb) (.flow fid) skb)) := by
    unfold deqStep
    rw [hsel]
    dsimp only
    rw [if_neg (not_le.mpr hc), hp]
    dsimp only
    rw [if_neg (not_lt.mpr hready)]
  by_cases hce : ceCond s now (deqTimeNextPacket s (getFlow s fid) skb)
  · rw [hstep, if_pos (by rw [ceCond_deqStepIp]; exact hce)]
    refine ⟨_, _, rfl, ?_, ?_⟩
    · simp [hce]
    · rw [stat_ce_dequeue_skb]
      dsimp only
      rw [stat_ce_deqStepIp, if_pos hce]
  · rw [hstep, if_neg (by rw [ceCond_deqStepIp]; exact hce)]
    refine ⟨_, _, rfl, ?_, ?_⟩
    · simp [hce]
    · rw [stat_ce_dequeue_skb, stat_ce_deqStepIp, if_neg hce]
      rfl

/-- Packet and state for the C5 executions: pacing disabled, one ready
packet whose effective send time lags `now = 100` by more than the
5 ns ce_threshold. -/
def c5Packet : Packet := { basePacket with time_to_send := 0 }

def c5Flow : marco_fq_flow :=
  { zeroFlow with sk := 2, fifo := [c5Packet], qlen := 1, credit := 1 }

def c5State : marco_fq_sched_data :=
  { baseState with rate_enable := false, ce_threshold := 5, qlen := 1,
                   backlog := c5Packet.len, new_flows := [2],
                   flows_tbl := [(2, c5Flow)], flows := 1 }

/-- Counterexample to C5 as stated: with pacing disabled
(rate_enable = false) a full marco_fq_dequeue still returns a CE-marked
packet and increments the CE counter, because the marking test is not
gated on rate_enable. -/
theorem marco_fq_ce_mark_counterexample :
    c5State.rate_enable = false ∧
    ((marco_fq_dequeue c5State 100 0).map
      (fun r => (r.1.map (fun p => p.ce), r.2.stat_ce_mark))) = some (some true, 1) := by
  decide

theorem marco_fq_ce_mark_condition_witness :
    ∃ skb' s', deqStep c5State 100 0 = DeqStepRes.out skb' 2 s' ∧
      skb'.ce = (c5Packet.ce ||
        ceCond c5State 100 (deqTimeNextPacket c5State (getFlow c5State 2) c5Packet)) ∧
      s'.stat_ce_mark = c5State.stat_ce_mark +
        (if ceCond c5State 100 (deqTimeNextPacket c5State (getFlow c5State 2) c5Packet)
         then 1 else 0) :=
  marco_fq_ce_mark_condition c5State 100 0 true 2 c5Packet (by decide) (by decide)
    (by decide) (by decide)

/-! ### Claim C7: activation of an idle flow on enqueue -/

theorem creditRefill_ge (c : Int) (q : Nat) (hcl : -2147483648 ≤ c)
    (hcu : c < 2147483648) (hq : q < 2147483648) : c ≤ creditRefill c q := by
  unfold creditRefill
  dsimp only
  split
  · have h1 := Nat.le_max_left ((c % 4294967296).toNat) (q % 4294967296)
    omega
  · rcases max_choice ((c % 4294967296).toNat) (q % 4294967296) with hm | hm <;> omega

theorem creditRefill_nonneg_eq (c : Int) (q : Nat) (hc : 0 ≤ c)
    (hcu : c < 2147483648) (hq : q < 2147483648) :
    creditRefill c q = max c (q : Int) := by
  unfold creditRefill
  dsimp only
  have hcu1 : ((c % 4294967296).toNat : Int) = c := by omega
  have hq1 : ((q % 4294967296 : Nat) : Int) = (q : Int) := by omega
  split
  · rw [Nat.cast_max, hcu1, hq1]
  · exfalso
    have h1 : (c % 4294967296).toNat < 2147483648 := by omega
    have h2 : q % 4294967296 < 2147483648 := by omega
    exact absurd (max_lt h1 h2) (by assumption)

theorem marco_flow_queue_add_credit (f : marco_fq_flow) (p : Packet) :
    (marco_flow_queue_add f p).credit = f.credit := by
  unfold marco_flow_queue_add
  cases f.fifo.getLast? with
  | none => rfl
  | some tl => dsimp only; split <;> rfl

/-- The detached-flow activation inside marco_fq_enqueue: with the ip
allocation succeeding, the enqueue completes, the flow joins the tail of
the new-flows list, and its credit is topped up by the u32 max exactly
when the idle time exceeded the refill delay. -/
theorem enqueue_rest_detached_spec (s0 : marco_fq_sched_data) (pkt2 : Packet)
    (fid jiffies : Nat) (f : marco_fq_flow)
    (hget : getFlow s0 fid = f) (hdet : f.detached = true) :
    (marco_fq_enqueue_rest s0 pkt2 (.flow fid) jiffies true).1 = EnqResult.success ∧
    (marco_fq_enqueue_rest s0 pkt2 (.flow fid) jiffies true).2.new_flows =
      s0.new_flows ++ [fid] ∧
    (getFlow (marco_fq_enqueue_rest s0 pkt2 (.flow fid) jiffies true).2 fid).credit =
      (if time_after jiffies (f.age + s0.flow_refill_delay)
       then creditRefill f.credit s0.quantum else f.credit) := by
  unfold marco_fq_enqueue_rest
  dsimp only [readFlow, writeFlow]
  rw [hget]
  rw [if_pos (show ({ f with qlen := f.qlen + 1 } : marco_fq_flow).detached = true from hdet)]
  dsimp only
  by_cases hta : time_after jiffies (f.age + s0.flow_refill_delay)
  · rw [if_pos (show time_after jiffies
        (({ f with qlen := f.qlen + 1 } : marco_fq_flow).age + s0.flow_refill_delay) = true
        from hta)]
    rw [if_pos hta]
    cases hip : ipLookupEnq s0.ip_count_table pkt2 with
    | some e =>
        unfold enqueueFinish
        dsimp only [readFlow, writeFlow]
        refine ⟨rfl, rfl, ?_⟩
        show ((lookupFlow (setFlow _ fid _) fid).getD zeroFlow).credit = _
        rw [lookupFlow_setFlow_self, Option.getD_some]
        rw [marco_flow_queue_add_credit]
        show ((lookupFlow (setFlow _ fid _) fid).getD zeroFlow).credit = _
        rw [lookupFlow_setFlow_self, Option.getD_some]
    | none =>
        rw [if_neg (by simp)]
        unfold enqueueFinish
        dsimp only [readFlow, writeFlow]
        refine ⟨rfl, rfl, ?_⟩
        show ((lookupFlow (setFlow _ fid _) fid).getD zeroFlow).credit = _
        rw [lookupFlow_setFlow_self, Option.getD_some]
        rw [marco_flow_queue_add_credit]
        show ((lookupFlow (setFlow _ fid _) fid).getD zeroFlow).credit = _
        rw [lookupFlow_setFlow_self, Option.getD_some]
  · rw [if_neg (show ¬ time_after jiffies
        (({ f with qlen := f.qlen + 1 } : marco_fq_flow).age + s0.flow_refill_delay) = true
        from hta)]
    rw [if_neg hta]
    cases hip : ipLookupEnq s0.ip_count_table pkt2 with
    | some e =>
        unfold enqueueFinish
        dsimp only [readFlow, writeFlow]
        refine ⟨rfl, rfl, ?_⟩
        show ((lookupFlow (setFlow _ fid _) fid).getD zeroFlow).credit = _
        rw [lookupFlow_setFlow_self, Option.getD_some]
        rw [marco_flow_queue_add_credit]
        show ((lookupFlow (setFlow _ fid _) fid).getD zeroFlow).credit = _
        rw [lookupFlow_setFlow_self, Option.getD_some]
    | none =>
        rw [if_neg (by simp)]
        unfold enqueueFinish
        dsimp only [readFlow, writeFlow]
        refine ⟨rfl, rfl, ?_⟩
        show ((lookupFlow (setFlow _ fid _) fid).getD zeroFlow).credit = _
        rw [lookupFlow_setFlow_self, Option.getD_some]
        rw [marco_flow_queue_add_credit]
        show ((lookupFlow (setFlow _ fid _) fid).getD zeroFlow).credit = _
        rw [lookupFlow_setFlow_self, Option.getD_some]

/-- C7 amended: on an enqueue whose classification finds an existing
detached (idle) flow, the flow is appended to the tail of the new-flows
list; if its idle duration exceeded the refill-delay threshold, its credit
becomes `max_t(u32, credit, quantum)` — which never reduces the existing
credit, and equals max(credit, quantum) (hence ≥ one quantum) when the
prior credit is nonnegative, but leaves a NEGATIVE prior credit unchanged
(below one quantum) because of the unsigned comparison. -/
theorem marco_fq_enqueue_idle_activation (s : marco_fq_sched_data) (pkt : Packet)
    (now jiffies : Nat) (fok : Bool) (f : marco_fq_flow)
    (h1 : ¬ s.limit ≤ s.qlen)
    (h2 : pkt.tstamp = 0)
    (h3 : pkt.prio_control = false)
    (h4 : pkt.sk ≠ 0)
    (h5 : pkt.sk_listener = false)
    (h6 : pkt.sk_tcp_close = false)
    (h7 : ¬ (2 ^ (s.fq_trees_log + 1) ≤ s.flows ∧ s.flows / 2 < s.inactive_flows))
    (h8 : lookupFlow s.flows_tbl pkt.sk = some f)
    (h9 : f.socket_hash = pkt.sk_hash)
    (h10 : ¬ s.flow_plimit ≤ u32ofInt f.qlen)
    (h11 : f.detached = true)
    (hcl : -2147483648 ≤ f.credit) (hcu : f.credit < 2147483648)
    (hqr : s.quantum < 2147483648) :
    (marco_fq_enqueue s pkt now jiffies fok true).1 = EnqResult.success ∧
    (marco_fq_enqueue s pkt now jiffies fok true).2.new_flows = s.new_flows ++ [pkt.sk] ∧
    (getFlow (marco_fq_enqueue s pkt now jiffies fok true).2 pkt.sk).credit =
      (if time_after jiffies (f.age + s.flow_refill_delay)
       then creditRefill f.credit s.quantum else f.credit) ∧
    f.credit ≤ creditRefill f.credit s.quantum ∧
    (0 ≤ f.credit → creditRefill f.credit s.quantum = max f.credit (s.quantum : Int)) := by
  have hcr1 := creditRefill_ge f.credit s.quantum hcl hcu hqr
  have hcr2 := fun hc => creditRefill_nonneg_eq f.credit s.quantum hc hcu hqr
  -- the packet after timestamp assignment
  have hid : classifyId { s with ktime_cache := now } { pkt with time_to_send := now } =
      pkt.sk := by
    unfold classifyId
    simp [h4, h5, h6]
  have hclass : marco_fq_classify { s with ktime_cache := now }
      { pkt with time_to_send := now } jiffies fok =
      (.flow pkt.sk, { pkt with time_to_send := now }, { s with ktime_cache := now }) := by
    unfold marco_fq_classify
    dsimp only
    rw [hid]
    rw [if_neg (show ¬ pkt.prio_control = true by simp [h3])]
    rw [if_neg (show ¬ (pkt.sk = 0 ∨ pkt.sk_listener = true) by simp [h4, h5])]
    rw [if_neg h7]
    rw [h8]
    dsimp only
    rw [if_neg (show ¬ (pkt.sk = pkt.sk ∧ ¬ f.socket_hash = pkt.sk_hash) by simp [h9])]
  have hrun : marco_fq_enqueue s pkt now jiffies fok true =
      marco_fq_enqueue_rest { s with ktime_cache := now } { pkt with time_to_send := now }
        (.flow pkt.sk) jiffies true := by
    unfold marco_fq_enqueue
    rw [if_neg h1]
    dsimp only
    rw [if_pos h2]
    dsimp only
    rw [hclass]
    dsimp only
    rw [if_neg (by simpa [getFlow, h8] using h10)]
  have hget : getFlow { s with ktime_cache := now } pkt.sk = f := by
    show (lookupFlow s.flows_tbl pkt.sk).getD zeroFlow = f
    rw [h8, Option.getD_some]
  have hrest := enqueue_rest_detached_spec { s with ktime_cache := now }
    { pkt with time_to_send := now } pkt.sk jiffies f hget h11
  rw [hrun]
  exact ⟨hrest.1, hrest.2.1, hrest.2.2, hcr1, hcr2⟩

/-- An idle (detached) flow with NEGATIVE credit -1, idle far past the
refill delay. -/
def c7Flow : marco_fq_flow :=
  { zeroFlow with sk := 4, socket_hash := 7, detached := true, age := 1, credit := -1 }

def c7State : marco_fq_sched_data :=
  { baseState with flows_tbl := [(4, c7Flow)], flows := 1, inactive_flows := 1,
                   quantum := 100 }

/-- Counterexample to C7 as stated: enqueueing to this long-idle flow
(the refill-delay branch IS taken) leaves the credit at -1, which is NOT
at least one quantum (100): `max_t(u32, credit, quantum)` compares the
negative credit as a huge unsigned value and keeps it. -/
theorem marco_fq_idle_refill_counterexample :
    (getFlow c7State 4).detached = true ∧
    (getFlow c7State 4).credit = -1 ∧
    time_after 10000 ((getFlow c7State 4).age + c7State.flow_refill_delay) = true ∧
    (marco_fq_enqueue c7State basePacket 5 10000 true true).1 = EnqResult.success ∧
    4 ∈ (marco_fq_enqueue c7State basePacket 5 10000 true true).2.new_flows ∧
    (getFlow (marco_fq_enqueue c7State basePacket 5 10000 true true).2 4).credit = -1 ∧
    ¬ ((c7State.quantum : Int) ≤ -1) := by
  decide

theorem marco_fq_enqueue_idle_activation_witness :
    (marco_fq_enqueue c7State basePacket 5 10000 true true).1 = EnqResult.success ∧
    (marco_fq_enqueue c7State basePacket 5 10000 true true).2.new_flows =
      c7State.new_flows ++ [basePacket.sk] ∧
    (getFlow (marco_fq_enqueue c7State basePacket 5 10000 true true).2 basePacket.sk).credit =
      (if time_after 10000 (c7Flow.age + c7State.flow_refill_delay)
       then creditRefill c7Flow.credit c7State.quantum else c7Flow.credit) ∧
    c7Flow.credit ≤ creditRefill c7Flow.credit c7State.quantum ∧
    (0 ≤ c7Flow.credit →
      creditRefill c7Flow.credit c7State.quantum = max c7Flow.credit (c7State.quantum : Int)) :=
  marco_fq_enqueue_idle_activation c7State basePacket 5 10000 true c7Flow (by decide) rfl
    rfl (by decide) rfl rfl (by decide) rfl rfl (by decide) rfl (by decide) (by decide)
    (by decide)

/-! ### Claim C6: horizon policy on enqueue -/

theorem toS64_small (x : Nat) (h : x < 9223372036854775808) : toS64 x = (x : Int) := by
  unfold toS64
  rw [Nat.mod_eq_of_lt (by unfold U64; omega)]
  rw [if_pos h]

theorem mem_flowElems_queue_add (f : marco_fq_flow) (p : Packet) :
    p ∈ flowElems (marco_flow_queue_add f p) := by
  unfold marco_flow_queue_add flowElems
  cases f.fifo.getLast? with
  | none => simp
  | some tl =>
      dsimp only
      split
      · simp
      · simp [mem_treeInsert]

/-- The non-detached continuation of marco_fq_enqueue: the packet is
inserted and the horizon counters are untouched. -/
theorem enqueue_rest_attached_spec (s0 : marco_fq_sched_data) (pkt2 : Packet)
    (fid jiffies : Nat) (f : marco_fq_flow)
    (hget : getFlow s0 fid = f) (hdet : f.detached = false) :
    (marco_fq_enqueue_rest s0 pkt2 (.flow fid) jiffies true).1 = EnqResult.success ∧
    (marco_fq_enqueue_rest s0 pkt2 (.flow fid) jiffies true).2.stat_horizon_caps =
      s0.stat_horizon_caps ∧
    (marco_fq_enqueue_rest s0 pkt2 (.flow fid) jiffies true).2.stat_horizon_drops =
      s0.stat_horizon_drops ∧
    pkt2 ∈ flowElems (getFlow (marco_fq_enqueue_rest s0 pkt2 (.flow fid) jiffies true).2 fid) := by
  unfold marco_fq_enqueue_rest
  dsimp only [readFlow, writeFlow]
  rw [hget]
  rw [if_neg (show ¬ ({ f with qlen := f.qlen + 1 } : marco_fq_flow).detached = true by
    simp [hdet])]
  cases hip : ipLookupEnq s0.ip_count_table pkt2 with
  | some e =>
      unfold enqueueFinish
      dsimp only [readFlow, writeFlow]
      refine ⟨rfl, rfl, rfl, ?_⟩
      show pkt2 ∈ flowElems ((lookupFlow (setFlow _ fid _) fid).getD zeroFlow)
      rw [lookupFlow_setFlow_self, Option.getD_some]
      exact mem_flowElems_queue_add _ pkt2
  | none =>
      rw [if_neg (by simp)]
      unfold enqueueFinish
      dsimp only [readFlow, writeFlow]
      refine ⟨rfl, rfl, rfl, ?_⟩
      show pkt2 ∈ flowElems ((lookupFlow (setFlow _ fid _) fid).getD zeroFlow)
      rw [lookupFlow_setFlow_self, Option.getD_some]
      exact mem_flowElems_queue_add _ pkt2

set_option maxHeartbeats 1600000 in
/-- C6: a packet carrying an explicit deadline beyond now + horizon.
Under the horizon-drop policy the enqueue drops it, increments exactly the
horizon-drop counter, and leaves the rest of the scheduler untouched (the
packet is never stored, so no subsequent dequeue can return it).  Under
the horizon-cap policy the packet's deadline is clamped to now + horizon,
the distinct horizon-cap counter is incremented (the drop counter is not),
and the clamped packet is queued in its flow. -/
theorem marco_fq_enqueue_horizon (s : marco_fq_sched_data) (pkt : Packet)
    (now jiffies : Nat) (fok : Bool) (f : marco_fq_flow)
    (ha : ¬ s.limit ≤ s.qlen)
    (hb : ¬ pkt.tstamp = 0)
    (hcache : s.ktime_cache ≤ now)
    (hhor : now + s.horizon < pkt.tstamp)
    (hrange : pkt.tstamp < 9223372036854775808)
    (h3 : pkt.prio_control = false)
    (h4 : pkt.sk ≠ 0)
    (h5 : pkt.sk_listener = false)
    (h6 : pkt.sk_tcp_close = false)
    (h7 : ¬ (2 ^ (s.fq_trees_log + 1) ≤ s.flows ∧ s.flows / 2 < s.inactive_flows))
    (h8 : lookupFlow s.flows_tbl pkt.sk = some f)
    (h9 : f.socket_hash = pkt.sk_hash)
    (h10 : ¬ s.flow_plimit ≤ u32ofInt f.qlen)
    (h11 : f.detached = false) :
    (s.horizon_drop = true →
      marco_fq_enqueue s pkt now jiffies fok true =
        (EnqResult.drop,
          { s with ktime_cache := now,
                   stat_horizon_drops := s.stat_horizon_drops + 1 })) ∧
    (s.horizon_drop = false →
      (marco_fq_enqueue s pkt now jiffies fok true).1 = EnqResult.success ∧
      (marco_fq_enqueue s pkt now jiffies fok true).2.stat_horizon_caps =
        s.stat_horizon_caps + 1 ∧
      (marco_fq_enqueue s pkt now jiffies fok true).2.stat_horizon_drops =
        s.stat_horizon_drops ∧
      { pkt with tstamp := now + s.horizon, time_to_send := now + s.horizon } ∈
        flowElems (getFlow (marco_fq_enqueue s pkt now jiffies fok true).2 pkt.sk)) := by
  have hbey1 : marco_fq_packet_beyond_horizon pkt s = true := by
    unfold marco_fq_packet_beyond_horizon
    rw [toS64_small _ hrange, toS64_small _ (by omega)]
    simp only [decide_eq_true_eq]
    omega
  have hbey2 : marco_fq_packet_beyond_horizon pkt { s with ktime_cache := now } = true := by
    show decide (toS64 (now + s.horizon) < toS64 pkt.tstamp) = true
    rw [toS64_small _ hrange,
        toS64_small _ (by omega : now + s.horizon < 9223372036854775808)]
    simp only [decide_eq_true_eq]
    exact_mod_cast hhor
  constructor
  · intro hdrop
    unfold marco_fq_enqueue
    rw [if_neg ha]
    dsimp only
    rw [if_neg hb, if_pos hbey1, if_pos hbey2]
    rw [if_pos (show ({ s with ktime_cache := now } : marco_fq_sched_data).horizon_drop = true
      from hdrop)]
  · intro hdrop
    have hid2 : classifyId { s with ktime_cache := now, stat_horizon_caps := s.stat_horizon_caps + 1 }
        { pkt with tstamp := now + s.horizon, time_to_send := now + s.horizon } = pkt.sk := by
      unfold classifyId
      simp [h4, h5, h6]
    have hrun : marco_fq_enqueue s pkt now jiffies fok true =
        marco_fq_enqueue_rest
          { s with ktime_cache := now, stat_horizon_caps := s.stat_horizon_caps + 1 }
          { pkt with tstamp := now + s.horizon, time_to_send := now + s.horizon }
          (.flow pkt.sk) jiffies true := by
      unfold marco_fq_enqueue
      rw [if_neg ha]
      dsimp only
      rw [if_neg hb, if_pos hbey1, if_pos hbey2]
      rw [if_neg (show ¬ ({ s with ktime_cache := now } : marco_fq_sched_data).horizon_drop = true
        by simp [hdrop])]
      dsimp only
      unfold marco_fq_classify
      dsimp only
      rw [hid2]
      rw [if_neg (show ¬ pkt.prio_control = true by simp [h3])]
      rw [if_neg (show ¬ (pkt.sk = 0 ∨ pkt.sk_listener = true) by simp [h4, h5])]
      rw [if_neg h7]
      rw [h8]
      dsimp only
      rw [if_neg (show ¬ (pkt.sk = pkt.sk ∧ ¬ f.socket_hash = pkt.sk_hash) by simp [h9])]
      dsimp only
      rw [if_neg (by simpa [getFlow, h8] using h10)]
    have hget : getFlow
        { s with ktime_cache := now, stat_horizon_caps := s.stat_horizon_caps + 1 }
        pkt.sk = f := by
      show (lookupFlow s.flows_tbl pkt.sk).getD zeroFlow = f
      rw [h8, Option.getD_some]
    have hrest := enqueue_rest_attached_spec
      { s with ktime_cache := now, stat_horizon_caps := s.stat_horizon_caps + 1 }
      { pkt with tstamp := now + s.horizon, time_to_send := now + s.horizon }
      pkt.sk jiffies f hget h11
    rw [hrun]
    exact ⟨hrest.1, hrest.2.1, hrest.2.2.1, hrest.2.2.2⟩

def c6Flow : marco_fq_flow := { zeroFlow with sk := 4, socket_hash := 7 }

def c6State : marco_fq_sched_data :=
  { baseState with flows_tbl := [(4, c6Flow)], flows := 1, horizon := 10 }

def c6Packet : Packet := { basePacket with tstamp := 1000 }

theorem marco_fq_enqueue_horizon_witness :
    (c6State.horizon_drop = true →
      marco_fq_enqueue c6State c6Packet 5 0 true true =
        (EnqResult.drop,
          { c6State with ktime_cache := 5,
                         stat_horizon_drops := c6State.stat_horizon_drops + 1 })) ∧
    (c6State.horizon_drop = false →
      (marco_fq_enqueue c6State c6Packet 5 0 true true).1 = EnqResult.success ∧
      (marco_fq_enqueue c6State c6Packet 5 0 true true).2.stat_horizon_caps =
        c6State.stat_horizon_caps + 1 ∧
      (marco_fq_enqueue c6State c6Packet 5 0 true true).2.stat_horizon_drops =
        c6State.stat_horizon_drops ∧
      { c6Packet with tstamp := 5 + c6State.horizon, time_to_send := 5 + c6State.horizon } ∈
        flowElems (getFlow (marco_fq_enqueue c6State c6Packet 5 0 true true).2 c6Packet.sk)) :=
  marco_fq_enqueue_horizon c6State c6Packet 5 0 true c6Flow (by decide) (by decide)
    (by decide) (by decide) (by decide) rfl (by decide) rfl rfl (by decide) rfl rfl
    (by decide) rfl

/-! ### Claim C10: termination of the dequeue selection loop -/

theorem deqStep_retry_cases (s : marco_fq_sched_data) (now jiffies : Nat)
    (s' : marco_fq_sched_data) (h : deqStep s now jiffies = .retry s') :
    ∃ b fid, fq_select s = some (b, fid) ∧
      (((getFlow s fid).credit ≤ 0 ∧ s' = deqStepCredit s b fid) ∨
       (∃ skb, ¬ (getFlow s fid).credit ≤ 0 ∧
         marco_fq_peek (getFlow s fid) = some skb ∧
         now < deqTimeNextPacket s (getFlow s fid) skb ∧
         s' = deqStepThrottle (deqStepIp s skb) b fid
               (deqTimeNextPacket s (getFlow s fid) skb)) ∨
       (¬ (getFlow s fid).credit ≤ 0 ∧ marco_fq_peek (getFlow s fid) = none ∧
         s' = deqStepEmpty s b fid jiffies)) := by
  unfold deqStep at h
  cases hsel : fq_select s with
  | none =>
      rw [hsel] at h
      dsimp only at h
      split at h <;> exact DeqStepRes.noConfusion h
  | some bf =>
      obtain ⟨b, fid⟩ := bf
      rw [hsel] at h
      dsimp only at h
      refine ⟨b, fid, rfl, ?_⟩
      by_cases hc : (getFlow s fid).credit ≤ 0
      · rw [if_pos hc] at h
        injection h with h
        exact Or.inl ⟨hc, h.symm⟩
      · rw [if_neg hc] at h
        cases hp : marco_fq_peek (getFlow s fid) with
        | some skb =>
            rw [hp] at h
            dsimp only at h
            by_cases ht : now < deqTimeNextPacket s (getFlow s fid) skb
            · rw [if_pos ht] at h
              injection h with h
              exact Or.inr (Or.inl ⟨skb, hc, rfl, ht, h.symm⟩)
            · rw [if_neg ht] at h
              split at h <;> exact DeqStepRes.noConfusion h
        | none =>
            rw [hp] at h
            injection h with h
            exact Or.inr (Or.inr ⟨hc, rfl, h.symm⟩)

theorem fq_select_true (s : marco_fq_sched_data) (fid : Nat)
    (h : fq_select s = some (true, fid)) : ∃ rest, s.new_flows = fid :: rest := by
  unfold fq_select at h
  cases hn : s.new_flows with
  | nil =>
      rw [hn] at h
      cases ho : s.old_flows with
      | nil => rw [ho] at h; simp at h
      | cons a l => rw [ho] at h; simp at h
  | cons a l =>
      rw [hn] at h
      simp at h
      exact ⟨l, by rw [h]⟩

theorem fq_select_false (s : marco_fq_sched_data) (fid : Nat)
    (h : fq_select s = some (false, fid)) :
    s.new_flows = [] ∧ ∃ rest, s.old_flows = fid :: rest := by
  unfold fq_select at h
  cases hn : s.new_flows with
  | nil =>
      rw [hn] at h
      cases ho : s.old_flows with
      | nil => rw [ho] at h; simp at h
      | cons a l =>
          rw [ho] at h
          simp at h
          exact ⟨rfl, l, by rw [h]⟩
  | cons a l => rw [hn] at h; simp at h

theorem flowWeight_after_set (s s2 : marco_fq_sched_data) (fid : Nat)
    (F : marco_fq_flow)
    (htbl : s2.flows_tbl = setFlow s.flows_tbl fid F)
    (hq : s2.quantum = s.quantum)
    (hF : rqN F.credit s.quantum ≤ rqN (getFlow s fid).credit s.quantum) :
    ∀ i, flowWeight s2 i ≤ flowWeight s i := by
  intro i
  unfold flowWeight getFlow
  rw [hq, htbl]
  by_cases hi : i = fid
  · subst hi
    rw [lookupFlow_setFlow_self, Option.getD_some]
    unfold getFlow at hF
    omega
  · rw [lookupFlow_setFlow_ne _ _ _ _ hi]

theorem flowWeight_after_set_self (s s2 : marco_fq_sched_data) (fid : Nat)
    (F : marco_fq_flow)
    (htbl : s2.flows_tbl = setFlow s.flows_tbl fid F)
    (hq : s2.quantum = s.quantum) :
    flowWeight s2 fid = rqN F.credit s.quantum + 2 := by
  unfold flowWeight getFlow
  rw [hq, htbl, lookupFlow_setFlow_self, Option.getD_some]

theorem flowWeight_same_tbl (s s2 : marco_fq_sched_data)
    (htbl : s2.flows_tbl = s.flows_tbl) (hq : s2.quantum = s.quantum) :
    ∀ i, flowWeight s2 i = flowWeight s i := by
  intro i
  unfold flowWeight getFlow
  rw [hq, htbl]

theorem deqStepIp_tbl (s : marco_fq_sched_data) (skb : Packet) :
    (deqStepIp s skb).flows_tbl = s.flows_tbl := by
  unfold deqStepIp; split <;> rfl

theorem deqStepIp_quantum (s : marco_fq_sched_data) (skb : Packet) :
    (deqStepIp s skb).quantum = s.quantum := by
  unfold deqStepIp; split <;> rfl

theorem deqStepIp_new (s : marco_fq_sched_data) (skb : Packet) :
    (deqStepIp s skb).new_flows = s.new_flows := by
  unfold deqStepIp; split <;> rfl

theorem deqStepIp_old (s : marco_fq_sched_data) (skb : Packet) :
    (deqStepIp s skb).old_flows = s.old_flows := by
  unfold deqStepIp; split <;> rfl

theorem set_throttled_new (s : marco_fq_sched_data) (fid : Nat) :
    (marco_fq_flow_set_throttled s fid).new_flows = s.new_flows := by
  unfold marco_fq_flow_set_throttled; dsimp only; split <;> rfl

theorem set_throttled_old (s : marco_fq_sched_data) (fid : Nat) :
    (marco_fq_flow_set_throttled s fid).old_flows = s.old_flows := by
  unfold marco_fq_flow_set_throttled; dsimp only; split <;> rfl

theorem set_throttled_tbl (s : marco_fq_sched_data) (fid : Nat) :
    (marco_fq_flow_set_throttled s fid).flows_tbl = s.flows_tbl := by
  unfold marco_fq_flow_set_throttled; dsimp only; split <;> rfl

theorem set_throttled_quantum (s : marco_fq_sched_data) (fid : Nat) :
    (marco_fq_flow_set_throttled s fid).quantum = s.quantum := by
  unfold marco_fq_flow_set_throttled; dsimp only; split <;> rfl

/-- The credit-refill rotation strictly decreases the loop measure. -/
theorem deqMeasure_credit_lt (s : marco_fq_sched_data) (b : Bool) (fid : Nat)
    (hq : 0 < s.quantum) (hsel : fq_select s = some (b, fid))
    (hc : (getFlow s fid).credit ≤ 0) :
    deqMeasure (deqStepCredit s b fid) < deqMeasure s := by
  have hrq := rqN_add_quantum (getFlow s fid).credit s.quantum hc hq
  have hrq1 := rqN_ge_one (getFlow s fid).credit s.quantum hc
  cases b with
  | true =>
      obtain ⟨rest, hnew⟩ := fq_select_true s fid hsel
      have htbl : (deqStepCredit s true fid).flows_tbl =
          setFlow s.flows_tbl fid
            { getFlow s fid with
                credit := (getFlow s fid).credit + (s.quantum : Int) } := rfl
      have hqq : (deqStepCredit s true fid).quantum = s.quantum := rfl
      have hWle := flowWeight_after_set s _ fid _ htbl hqq (by dsimp only; omega)
      have hWfid : flowWeight (deqStepCredit s true fid) fid =
          rqN ((getFlow s fid).credit + (s.quantum : Int)) s.quantum + 2 :=
        flowWeight_after_set_self s _ fid _ htbl hqq
      have hnew1 : (deqStepCredit s true fid).new_flows = rest := by
        show s.new_flows.tail = rest
        rw [hnew]
        rfl
      have hold1 : (deqStepCredit s true fid).old_flows = s.old_flows ++ [fid] := rfl
      unfold deqMeasure
      rw [hnew1, hold1, hnew]
      rw [List.map_append, List.sum_append]
      simp only [List.map_cons, List.sum_cons, List.map_nil, List.sum_nil]
      have hA : ((rest.map (fun i => flowWeight (deqStepCredit s true fid) i + 1)).sum ≤
          (rest.map (fun i => flowWeight s i + 1)).sum) :=
        List.sum_le_sum (fun i _ => by have := hWle i; omega)
      have hB : ((s.old_flows.map (flowWeight (deqStepCredit s true fid))).sum ≤
          (s.old_flows.map (flowWeight s)).sum) :=
        List.sum_le_sum (fun i _ => hWle i)
      have hC : flowWeight (deqStepCredit s true fid) fid + 1 ≤ flowWeight s fid := by
        rw [hWfid]
        unfold flowWeight
        omega
      omega
  | false =>
      obtain ⟨hnil, rest, hold⟩ := fq_select_false s fid hsel
      have htbl : (deqStepCredit s false fid).flows_tbl =
          setFlow s.flows_tbl fid
            { getFlow s fid with
                credit := (getFlow s fid).credit + (s.quantum : Int) } := rfl
      have hqq : (deqStepCredit s false fid).quantum = s.quantum := rfl
      have hWle := flowWeight_after_set s _ fid _ htbl hqq (by dsimp only; omega)
      have hWfid : flowWeight (deqStepCredit s false fid) fid =
          rqN ((getFlow s fid).credit + (s.quantum : Int)) s.quantum + 2 :=
        flowWeight_after_set_self s _ fid _ htbl hqq
      have hnew1 : (deqStepCredit s false fid).new_flows = [] := by
        show s.new_flows = []
        exact hnil
      have hold1 : (deqStepCredit s false fid).old_flows = s.old_flows.tail ++ [fid] := rfl
      unfold deqMeasure
      rw [hnew1, hold1, hnil, hold]
      simp only [List.tail_cons]
      rw [List.map_append, List.sum_append]
      simp only [List.map_cons, List.sum_cons, List.map_nil, List.sum_nil]
      have hB : ((rest.map (flowWeight (deqStepCredit s false fid))).sum ≤
          (rest.map (flowWeight s)).sum) :=
        List.sum_le_sum (fun i _ => hWle i)
      have hC : flowWeight (deqStepCredit s false fid) fid + 1 ≤ flowWeight s fid := by
        rw [hWfid]
        unfold flowWeight
        omega
      omega

/-- The throttling rotation strictly decreases the loop measure: the flow
leaves the round-robin lists for the delayed tree and only its
time_next_packet field changes. -/
theorem deqMeasure_throttle_lt (s : marco_fq_sched_data) (b : Bool) (fid : Nat)
    (skb : Packet) (tnp : Nat) (hsel : fq_select s = some (b, fid)) :
    deqMeasure (deqStepThrottle (deqStepIp s skb) b fid tnp) < deqMeasure s := by
  have hget_t : getFlow (deqStepIp s skb) fid = getFlow s fid := by
    unfold getFlow; rw [deqStepIp_tbl]
  cases b with
  | true =>
      obtain ⟨rest, hnew⟩ := fq_select_true s fid hsel
      have htbl : (deqStepThrottle (deqStepIp s skb) true fid tnp).flows_tbl =
          setFlow s.flows_tbl fid
            { getFlow s fid with time_next_packet := tnp } := by
        unfold deqStepThrottle
        dsimp only
        rw [set_throttled_tbl]
        show setFlow (deqStepIp s skb).flows_tbl fid
            { getFlow (deqStepIp s skb) fid with time_next_packet := tnp } = _
        rw [deqStepIp_tbl, hget_t]
      have hq : (deqStepThrottle (deqStepIp s skb) true fid tnp).quantum = s.quantum := by
        unfold deqStepThrottle
        dsimp only
        rw [set_throttled_quantum]
        show (deqStepIp s skb).quantum = s.quantum
        exact deqStepIp_quantum s skb
      have hWle := flowWeight_after_set s _ fid _ htbl hq (le_refl _)
      have hnew1 : (deqStepThrottle (deqStepIp s skb) true fid tnp).new_flows = rest := by
        unfold deqStepThrottle
        dsimp only
        rw [set_throttled_new]
        show (deqStepIp s skb).new_flows.tail = rest
        rw [deqStepIp_new, hnew]
        rfl
      have hold1 : (deqStepThrottle (deqStepIp s skb) true fid tnp).old_flows =
          s.old_flows := by
        unfold deqStepThrottle
        dsimp only
        rw [set_throttled_old]
        show (deqStepIp s skb).old_flows = s.old_flows
        exact deqStepIp_old s skb
      unfold deqMeasure
      rw [hnew1, hold1, hnew]
      simp only [List.map_cons, List.sum_cons]
      have hA : ((rest.map (fun i =>
          flowWeight (deqStepThrottle (deqStepIp s skb) true fid tnp) i + 1)).sum ≤
          (rest.map (fun i => flowWeight s i + 1)).sum) :=
        List.sum_le_sum (fun i _ => by have := hWle i; omega)
      have hB : ((s.old_flows.map
          (flowWeight (deqStepThrottle (deqStepIp s skb) true fid tnp))).sum ≤
          (s.old_flows.map (flowWeight s)).sum) :=
        List.sum_le_sum (fun i _ => hWle i)
      omega
  | false =>
      obtain ⟨hnil, rest, hold⟩ := fq_select_false s fid hsel
      have htbl : (deqStepThrottle (deqStepIp s skb) false fid tnp).flows_tbl =
          setFlow s.flows_tbl fid
            { getFlow s fid with time_next_packet := tnp } := by
        unfold deqStepThrottle
        dsimp only
        rw [set_throttled_tbl]
        show setFlow (deqStepIp s skb).flows_tbl fid
            { getFlow (deqStepIp s skb) fid with time_next_packet := tnp } = _
        rw [deqStepIp_tbl, hget_t]
      have hq : (deqStepThrottle (deqStepIp s skb) false fid tnp).quantum = s.quantum := by
        unfold deqStepThrottle
        dsimp only
        rw [set_throttled_quantum]
        show (deqStepIp s skb).quantum = s.quantum
        exact deqStepIp_quantum s skb
      have hWle := flowWeight_after_set s _ fid _ htbl hq (le_refl _)
      have hnew1 : (deqStepThrottle (deqStepIp s skb) false fid tnp).new_flows = [] := by
        unfold deqStepThrottle
        dsimp only
        rw [set_throttled_new]
        show (deqStepIp s skb).new_flows = []
        rw [deqStepIp_new, hnil]
      have hold1 : (deqStepThrottle (deqStepIp s skb) false fid tnp).old_flows = rest := by
        unfold deqStepThrottle
        dsimp only
        rw [set_throttled_old]
        show (deqStepIp s skb).old_flows.tail = rest
        rw [deqStepIp_old, hold]
        rfl
      unfold deqMeasure
      rw [hnew1, hold1, hnil, hold]
      simp only [List.map_cons, List.sum_cons, List.map_nil, List.sum_nil]
      have hB : ((rest.map
          (flowWeight (deqStepThrottle (deqStepIp s skb) false fid tnp))).sum ≤
          (rest.map (flowWeight s)).sum) :=
        List.sum_le_sum (fun i _ => hWle i)
      have hpos : 2 ≤ flowWeight s fid := by
        unfold flowWeight
        omega
      omega

/-- The empty-flow demotion/detachment strictly decreases the loop measure. -/
theorem deqMeasure_empty_lt (s : marco_fq_sched_data) (b : Bool) (fid jiffies : Nat)
    (hsel : fq_select s = some (b, fid)) :
    deqMeasure (deqStepEmpty s b fid jiffies) < deqMeasure s := by
  cases b with
  | true =>
      obtain ⟨rest, hnew⟩ := fq_select_true s fid hsel
      by_cases hcase : s.old_flows = []
      · -- the old list is empty: the flow is detached
        have hres : deqStepEmpty s true fid jiffies =
            { writeFlow (popSelected s true) (.flow fid)
                (marco_fq_flow_set_detached (getFlow (popSelected s true) fid) jiffies) with
              inactive_flows := (popSelected s true).inactive_flows + 1 } := by
          unfold deqStepEmpty
          dsimp only
          rw [if_neg (fun h => h.2 (show (popSelected s true).old_flows = [] from hcase))]
          rfl
        have htbl : (deqStepEmpty s true fid jiffies).flows_tbl =
            setFlow s.flows_tbl fid
              (marco_fq_flow_set_detached (getFlow s fid) jiffies) := by
          rw [hres]
          rfl
        have hq : (deqStepEmpty s true fid jiffies).quantum = s.quantum := by
          rw [hres]
          rfl
        have hWle := flowWeight_after_set s _ fid _ htbl hq (le_refl _)
        have hnew1 : (deqStepEmpty s true fid jiffies).new_flows = rest := by
          rw [hres]
          show s.new_flows.tail = rest
          rw [hnew]
          rfl
        have hold1 : (deqStepEmpty s true fid jiffies).old_flows = s.old_flows := by
          rw [hres]
          rfl
        unfold deqMeasure
        rw [hnew1, hold1, hnew]
        simp only [List.map_cons, List.sum_cons]
        have hA : ((rest.map (fun i =>
            flowWeight (deqStepEmpty s true fid jiffies) i + 1)).sum ≤
            (rest.map (fun i => flowWeight s i + 1)).sum) :=
          List.sum_le_sum (fun i _ => by have := hWle i; omega)
        have hB : ((s.old_flows.map (flowWeight (deqStepEmpty s true fid jiffies))).sum ≤
            (s.old_flows.map (flowWeight s)).sum) :=
          List.sum_le_sum (fun i _ => hWle i)
        omega
      · -- the old list is non-empty: rotate the flow to its tail
        have hres : deqStepEmpty s true fid jiffies =
            { popSelected s true with
              old_flows := (popSelected s true).old_flows ++ [fid] } := by
          unfold deqStepEmpty
          dsimp only
          rw [if_pos (⟨rfl, show (popSelected s true).old_flows ≠ [] from hcase⟩ :
            true = true ∧ (popSelected s true).old_flows ≠ [])]
        have hWeq := flowWeight_same_tbl s (deqStepEmpty s true fid jiffies)
          (by rw [hres]; rfl) (by rw [hres]; rfl)
        have hnew1 : (deqStepEmpty s true fid jiffies).new_flows = rest := by
          rw [hres]
          show s.new_flows.tail = rest
          rw [hnew]
          rfl
        have hold1 : (deqStepEmpty s true fid jiffies).old_flows =
            s.old_flows ++ [fid] := by
          rw [hres]
          rfl
        unfold deqMeasure
        rw [hnew1, hold1, hnew]
        rw [List.map_append, List.sum_append]
        simp only [List.map_cons, List.sum_cons, List.map_nil, List.sum_nil]
        have hA : ((rest.map (fun i =>
            flowWeight (deqStepEmpty s true fid jiffies) i + 1)).sum ≤
            (rest.map (fun i => flowWeight s i + 1)).sum) :=
          List.sum_le_sum (fun i _ => by have := hWeq i; omega)
        have hB : ((s.old_flows.map (flowWeight (deqStepEmpty s true fid jiffies))).sum ≤
            (s.old_flows.map (flowWeight s)).sum) :=
          List.sum_le_sum (fun i _ => le_of_eq (hWeq i))
        have hC : flowWeight (deqStepEmpty s true fid jiffies) fid = flowWeight s fid :=
          hWeq fid
        omega
  | false =>
      obtain ⟨hnil, rest, hold⟩ := fq_select_false s fid hsel
      have hres : deqStepEmpty s false fid jiffies =
          { writeFlow (popSelected s false) (.flow fid)
              (marco_fq_flow_set_detached (getFlow (popSelected s false) fid) jiffies) with
            inactive_flows := (popSelected s false).inactive_flows + 1 } := by
        unfold deqStepEmpty
        dsimp only
        rw [if_neg (fun h => absurd h.1 (by decide))]
        rfl
      have htbl : (deqStepEmpty s false fid jiffies).flows_tbl =
          setFlow s.flows_tbl fid
            (marco_fq_flow_set_detached (getFlow s fid) jiffies) := by
        rw [hres]
        rfl
      have hq : (deqStepEmpty s false fid jiffies).quantum = s.quantum := by
        rw [hres]
        rfl
      have hWle := flowWeight_after_set s _ fid _ htbl hq (le_refl _)
      have hnew1 : (deqStepEmpty s false fid jiffies).new_flows = [] := by
        rw [hres]
        show s.new_flows = []
        exact hnil
      have hold1 : (deqStepEmpty s false fid jiffies).old_flows = rest := by
        rw [hres]
        show s.old_flows.tail = rest
        rw [hold]
        rfl
      unfold deqMeasure
      rw [hnew1, hold1, hnil, hold]
      simp only [List.map_cons, List.sum_cons, List.map_nil, List.sum_nil]
      have hB : ((rest.map (flowWeight (deqStepEmpty s false fid jiffies))).sum ≤
          (rest.map (flowWeight s)).sum) :=
        List.sum_le_sum (fun i _ => hWle i)
      have hpos : 2 ≤ flowWeight s fid := by
        unfold flowWeight
        omega
      omega

/-- Every retrying pass of the selection loop keeps the quantum and
strictly decreases the termination measure. -/
theorem deqStep_retry_spec (s s' : marco_fq_sched_data) (now jiffies : Nat)
    (hq : 0 < s.quantum) (h : deqStep s now jiffies = .retry s') :
    s'.quantum = s.quantum ∧ deqMeasure s' < deqMeasure s := by
  have hcfg : cfgOf s' = cfgOf s := by
    have h2 := cfgOf_deqStep s now jiffies
    rw [h] at h2
    exact h2
  refine ⟨congrArg (fun c => c.1) hcfg, ?_⟩
  obtain ⟨b, fid, hsel, hcases⟩ := deqStep_retry_cases s now jiffies s' h
  rcases hcases with ⟨hc, rfl⟩ | ⟨skb, _, _, _, rfl⟩ | ⟨_, _, rfl⟩
  · exact deqMeasure_credit_lt s b fid hq hsel hc
  · exact deqMeasure_throttle_lt s b fid skb _ hsel
  · exact deqMeasure_empty_lt s b fid jiffies hsel

theorem deqLoopF_succ (now jiffies n : Nat) (s : marco_fq_sched_data) :
    deqLoopF now jiffies (n + 1) s =
      match deqStep s now jiffies with
      | .retry s' => deqLoopF now jiffies n s'
      | .nothingReady s' => some (none, s')
      | .out skb fid s' => some (some (skb, fid), s') := rfl

/-- With fuel exceeding the termination measure, the selection loop always
returns (the fuel never runs out) when the quantum is positive. -/
theorem deqLoopF_success (now jiffies : Nat) :
    ∀ n (s : marco_fq_sched_data), 0 < s.quantum → deqMeasure s < n →
      (deqLoopF now jiffies n s).isSome := by
  intro n
  induction n with
  | zero => intro s _ hm; omega
  | succ n ih =>
      intro s hq hm
      rw [deqLoopF_succ]
      cases hstep : deqStep s now jiffies with
      | retry s' =>
          have hspec := deqStep_retry_spec s s' now jiffies hq hstep
          exact ih s' (hspec.1 ▸ hq) (by omega)
      | nothingReady s' => rfl
      | out skb fid s' => rfl

/-- C10: for every scheduler state with a positive quantum, the dequeue
selection loop (credit refill-and-rotate, empty-flow demotion or
detachment, throttling of not-yet-due flows) terminates: marco_fq_dequeue
returns either a packet or "nothing ready" after finitely many retries
(the fuelled loop never exhausts its fuel). -/
theorem marco_fq_dequeue_terminates (s : marco_fq_sched_data) (now jiffies : Nat)
    (hq : 0 < s.quantum) :
    (marco_fq_dequeue s now jiffies).isSome := by
  unfold marco_fq_dequeue
  by_cases h0 : s.qlen = 0
  · rw [if_pos h0]
    rfl
  · rw [if_neg h0]
    cases hpk : marco_fq_peek s.internal with
    | some skb => rfl
    | none =>
        dsimp only
        have hqct : (marco_fq_check_throttled { s with ktime_cache := now } now).quantum =
            s.quantum := by
          have h2 := cfgOf_check_throttled { s with ktime_cache := now } now
          have h3 := congrArg (fun c => c.1) h2
          exact h3
        have hloop := deqLoopF_success now jiffies
          (deqMeasure (marco_fq_check_throttled { s with ktime_cache := now } now) + 1)
          (marco_fq_check_throttled { s with ktime_cache := now } now)
          (by rw [hqct]; exact hq) (Nat.lt_succ_self _)
        cases hres : deqLoopF now jiffies
            (deqMeasure (marco_fq_check_throttled { s with ktime_cache := now } now) + 1)
            (marco_fq_check_throttled { s with ktime_cache := now } now) with
        | none => rw [hres] at hloop; exact absurd hloop (by decide)
        | some r =>
            obtain ⟨osk, s'⟩ := r
            cases osk with
            | none => rfl
            | some p =>
                obtain ⟨skb, fid⟩ := p
                rfl

theorem marco_fq_dequeue_terminates_witness :
    0 < baseState.quantum ∧ (marco_fq_dequeue baseState 0 0).isSome :=
  ⟨by decide, marco_fq_dequeue_terminates baseState 0 0 (by decide)⟩
